import Mathlib

/-!
Verification development for the parliamentary-proceedings ingestion and
reconciliation pipeline (`src/python`).  The Python source is shallowly
embedded: pure functions become Lean functions, the relational store becomes
an explicit record of row lists, and each SQL statement becomes a pure state
transformer with the same semantics (find / append / in-place map / filter).

Conventions used throughout the embedding:
* Python `None` and the empty string / zero id (both falsy in the source) are
  represented as `Option.none`; a present, truthy value is `some v`.
* Auto-generated primary keys (postgres serials, uuids) are modelled as `Nat`
  counters per table; only equality of ids matters to the source.
* Dates and timestamps are compared but never decomposed by the code under
  scrutiny, so they are modelled as the strings the code passes around, or as
  `Nat` ordinals where only their ordering is used (`created_at`, the cleanup
  date range).
* Cooperative-async execution is serialized in program order: every store
  call in the source is awaited before the next one of the same task, and the
  claims under study quantify over the data, not over schedules.
-/

namespace SecondReading

/-- `substrOf needle hay` is Python `needle in hay` on strings:
`true` iff `needle` occurs contiguously inside `hay`. -/
def substrOf (needle hay : String) : Bool :=
  decide (needle.data <:+: hay.data)

/-- Python `str.lower`, over the character list (the designations involved
are basic latin, where `Char.toLower` agrees with Python). -/
def lowerStr (s : String) : String :=
  String.mk (s.data.map Char.toLower)

/-- Python slicing `s[:n]`: the first `n` characters. -/
def takeStr (s : String) (n : Nat) : String :=
  String.mk (s.data.take n)

/-- Python falsiness of a string: `not s` is true exactly on the empty
string. -/
def strEmpty (s : String) : Bool :=
  s.data.isEmpty

/-- An apostrophe character, kept out of string literals. -/
def apos : String := String.mk [Char.ofNat 39]

/-! ### Ministry attribution, async variant (`batch_process.py`)

`DESIGNATION_TO_MINISTRY` of `batch_process.py` (identical in
`process_hansard.py`), in dict insertion order. -/

namespace BatchProcess

/-- The designation table of `batch_process.py`, lines 36-53.  The PMO entry
is first; its key contains an apostrophe. -/
def DESIGNATION_TO_MINISTRY : List (String × String) :=
  [ ("Minister in the Prime Minister" ++ apos ++ "s Office", "PMO"),
    ("Minister for Culture, Community and Youth", "MCCY"),
    ("Minister for Defence", "MINDEF"),
    ("Minister for Digital Development and Information", "MDDI"),
    ("Minister for Education", "MOE"),
    ("Minister for Finance", "MOF"),
    ("Minister for Foreign Affairs", "MFA"),
    ("Minister for Health", "MOH"),
    ("Minister for Home Affairs", "MHA"),
    ("Minister for Law", "MINLAW"),
    ("Minister for Manpower", "MOM"),
    ("Minister for National Development", "MND"),
    ("Minister for Social and Family Development", "MSF"),
    ("Minister for Sustainability and the Environment", "MSE"),
    ("Minister for Trade and Industry", "MTI"),
    ("Minister for Transport", "MOT") ]

/-- `batch_process.py` `detect_ministry_from_designation` (lines 55-62):
lowercases the designation, then tests each table key — as written in the
source, the key itself is *not* lowercased before the containment test. -/
def detect_ministry_from_designation (designation : Option String) : Option String :=
  match designation with
  | none => none
  | some d =>
    if strEmpty d then none
    else
      let dLower := lowerStr d
      (DESIGNATION_TO_MINISTRY.find? (fun kv => substrOf kv.1 dLower)).map (·.2)

/-- `batch_process.py` `detect_ministry_from_content` (lines 64-76): scan the
first 500 characters for each table key in insertion order, returning the
first hit. -/
def detect_ministry_from_content (content_plain : String) : Option String :=
  if strEmpty content_plain then none
  else
    let preamble := takeStr content_plain 500
    (DESIGNATION_TO_MINISTRY.find? (fun kv => substrOf kv.1 preamble)).map (·.2)

/-- A speaker / member record as the hansard source exposes it:
`name`, `constituency`, `appointment` (the designation). -/
structure MP where
  name : String
  constituency : Option String
  appointment : Option String
deriving Repr, DecidableEq

/-- `batch_process.py` `detect_ministry_from_speakers` (lines 78-85): first
speaker whose appointment contains "minister" case-insensitively and maps
through the table wins. -/
def detect_ministry_from_speakers (speakers : List MP) : Option String :=
  speakers.findSome? (fun speaker =>
    match speaker.appointment with
    | none => none
    | some d =>
      if substrOf "minister" (lowerStr d) then
        detect_ministry_from_designation (some d)
      else none)

/-- One section as fetched for ingestion (fields used by the pipeline). -/
structure SectionIn where
  category : String
  section_type : String
  title : String
  content_html : String
  content_plain : String
  order : Nat
  source_url : Option String
  speakers : List MP
deriving Repr, DecidableEq

/-- `batch_process.py` `detect_ministry` (lines 87-94): content first, then
speaker fallback.  No category is consulted. -/
def detect_ministry (sec : SectionIn) : Option String :=
  match detect_ministry_from_content sec.content_plain with
  | some m => some m
  | none => detect_ministry_from_speakers sec.speakers

end BatchProcess

/-! ### Ministry attribution, sqlite variant (`batch_process_sqlite.py`) -/

namespace BatchProcessSqlite

/-- The designation table of `batch_process_sqlite.py`, lines 36-53; the PMO
key is the bare "Prime Minister". -/
def DESIGNATION_TO_MINISTRY : List (String × String) :=
  [ ("Prime Minister", "PMO"),
    ("Minister for Culture, Community and Youth", "MCCY"),
    ("Minister for Defence", "MINDEF"),
    ("Minister for Digital Development and Information", "MDDI"),
    ("Minister for Education", "MOE"),
    ("Minister for Finance", "MOF"),
    ("Minister for Foreign Affairs", "MFA"),
    ("Minister for Health", "MOH"),
    ("Minister for Home Affairs", "MHA"),
    ("Minister for Law", "MINLAW"),
    ("Minister for Manpower", "MOM"),
    ("Minister for National Development", "MND"),
    ("Minister for Social and Family Development", "MSF"),
    ("Minister for Sustainability and the Environment", "MSE"),
    ("Minister for Trade and Industry", "MTI"),
    ("Minister for Transport", "MOT") ]

/-- `FULL_NAME_TO_MINISTRY` of `batch_process_sqlite.py`, lines 56-73. -/
def FULL_NAME_TO_MINISTRY : List (String × String) :=
  [ ("Prime Minister" ++ apos ++ "s Office", "PMO"),
    ("Ministry of Culture, Community and Youth", "MCCY"),
    ("Ministry of Defence", "MINDEF"),
    ("Ministry of Digital Development and Information", "MDDI"),
    ("Ministry of Education", "MOE"),
    ("Ministry of Finance", "MOF"),
    ("Ministry of Foreign Affairs", "MFA"),
    ("Ministry of Health", "MOH"),
    ("Ministry of Home Affairs", "MHA"),
    ("Ministry of Law", "MINLAW"),
    ("Ministry of Manpower", "MOM"),
    ("Ministry of National Development", "MND"),
    ("Ministry of Social and Family Development", "MSF"),
    ("Ministry of Sustainability and the Environment", "MSE"),
    ("Ministry of Trade and Industry", "MTI"),
    ("Ministry of Transport", "MOT") ]

/-- `batch_process_sqlite.py` `detect_ministry_from_designation` (lines
75-83): here both sides of the containment test are lowercased. -/
def detect_ministry_from_designation (designation : Option String) : Option String :=
  match designation with
  | none => none
  | some d =>
    if strEmpty d then none
    else
      let dLower := lowerStr d
      (DESIGNATION_TO_MINISTRY.find? (fun kv => substrOf (lowerStr kv.1) dLower)).map (·.2)

/-- Loop state of the PMO-deferral scan in
`batch_process_sqlite.detect_ministry_from_content`. -/
def contentScan (preamble : String) : List (String × String) → Bool → Option String
  | [], pmoMatch => if pmoMatch then some "PMO" else none
  | kv :: rest, pmoMatch =>
    if substrOf kv.1 preamble then
      if kv.2 = "PMO" then contentScan preamble rest true
      else some kv.2
    else contentScan preamble rest pmoMatch

/-- `batch_process_sqlite.py` `detect_ministry_from_content` (lines 86-106):
scan the first 1000 characters; a PMO-designation hit is only remembered and
returned after the loop if no other designation matched. -/
def detect_ministry_from_content (content_plain : String) : Option String :=
  if strEmpty content_plain then none
  else
    contentScan (takeStr content_plain 1000) DESIGNATION_TO_MINISTRY false

/-- `batch_process_sqlite.py` `detect_ministry_from_speakers` (lines
108-116). -/
def detect_ministry_from_speakers (speakers : List BatchProcess.MP) : Option String :=
  speakers.findSome? (fun speaker =>
    match speaker.appointment with
    | none => none
    | some d =>
      if substrOf "minister" (lowerStr d) then
        detect_ministry_from_designation (some d)
      else none)

/-- `batch_process_sqlite.py` `detect_ministry_from_title` (lines 118-123). -/
def detect_ministry_from_title (title : String) : Option String :=
  (FULL_NAME_TO_MINISTRY.find? (fun kv => substrOf kv.1 title)).map (·.2)

/-- `batch_process_sqlite.py` `detect_ministry` (lines 125-133). -/
def detect_ministry (sec : BatchProcess.SectionIn) : Option String :=
  match detect_ministry_from_content sec.content_plain with
  | some m => some m
  | none => detect_ministry_from_speakers sec.speakers

/-- The ministry-attribution decision of `batch_process_sqlite.py`
`process_section` (lines 147-165): the acronym the section is tagged with,
before the acronym-to-id lookup.  Category `adjournment_motion` skips
tagging; category `motion` tries the title, then the content; every other
category uses `detect_ministry`. -/
def process_section_ministry (sec : BatchProcess.SectionIn) : Option String :=
  if sec.category = "adjournment_motion" then none
  else if sec.category = "motion" then
    match detect_ministry_from_title sec.title with
    | some m => some m
    | none => detect_ministry_from_content sec.content_plain
  else detect_ministry sec

end BatchProcessSqlite

/-! ### Entity resolver over the store, async variant (`db_async.py`)

Each SQL statement of `db_async.py` becomes a pure transformer of a table
value.  Table rows carry `Nat` ids (postgres serials); a table value carries
the next fresh id. -/

namespace DbAsync

/-- A `bills` row (`db_async.py` / schema §6): nullable ministry reference and
first-reading fields.  The `TO_DATE` store-side conversion of the supplied
`DD-MM-YYYY` string is elided: the stored date is represented by the string
supplied, `none` when NULL. -/
structure Bill where
  id : Nat
  title : String
  ministry_id : Option Nat
  first_reading_date : Option String
  first_reading_sitting_id : Option Nat
deriving Repr, DecidableEq

/-- The `bills` table plus its serial id counter. -/
structure BillsTable where
  nextId : Nat
  rows : List Bill
deriving Repr, DecidableEq

/-- `db_async.py` `find_or_create_bill` (lines 63-99; `db_sqlite.py` lines
106-151 has the same logic): look up by exact title; if found, set the
ministry only when the stored one is unset, and set the first-reading date
and sitting together only when the stored first-reading *date* is unset;
if absent, insert a row with all supplied fields.  Python falsiness of the
arguments (`if ministry_id and ...`, `if first_reading_date and ...`) is
`Option.isSome` under the none-for-falsy convention. -/
def find_or_create_bill (st : BillsTable) (title : String) (ministry_id : Option Nat)
    (first_reading_date : Option String) (first_reading_sitting_id : Option Nat) :
    Nat × BillsTable :=
  match st.rows.find? (fun b => b.title = title) with
  | some row =>
    let rows1 :=
      if ministry_id.isSome && row.ministry_id.isNone then
        st.rows.map (fun b =>
          if b.id = row.id then { b with ministry_id := ministry_id } else b)
      else st.rows
    let rows2 :=
      if first_reading_date.isSome && row.first_reading_date.isNone then
        rows1.map (fun b =>
          if b.id = row.id then
            { b with first_reading_date := first_reading_date,
                     first_reading_sitting_id := first_reading_sitting_id }
          else b)
      else rows1
    (row.id, { st with rows := rows2 })
  | none =>
    (st.nextId,
      { nextId := st.nextId + 1,
        rows := st.rows ++
          [{ id := st.nextId, title := title, ministry_id := ministry_id,
             first_reading_date := first_reading_date,
             first_reading_sitting_id := first_reading_sitting_id }] })

/-- The arguments of one `find_or_create_bill` call. -/
structure BillCall where
  title : String
  ministry_id : Option Nat
  first_reading_date : Option String
  first_reading_sitting_id : Option Nat
deriving Repr, DecidableEq

/-- The table after one `find_or_create_bill` call. -/
def billStep (st : BillsTable) (c : BillCall) : BillsTable :=
  (find_or_create_bill st c.title c.ministry_id c.first_reading_date
    c.first_reading_sitting_id).2

/-- A sequence of `find_or_create_bill` calls, run left to right. -/
def runBillCalls (st : BillsTable) (calls : List BillCall) : BillsTable :=
  calls.foldl billStep st

/-- Well-formedness of the bills table: ids are pairwise distinct and below
the serial counter (what postgres serial / uuid primary keys guarantee). -/
def BillsTable.WF (st : BillsTable) : Prop :=
  ((st.rows.map (fun b => b.id)).Nodup) ∧ ∀ b ∈ st.rows, b.id < st.nextId

/-- Field monotonicity between two snapshots of one bill row: identity and
title are preserved, a set ministry keeps its value, and once the
first-reading date is set both first-reading fields keep their values. -/
def billMono (b b2 : Bill) : Prop :=
  b2.id = b.id ∧ b2.title = b.title ∧
  (b.ministry_id.isSome = true → b2.ministry_id = b.ministry_id) ∧
  (b.first_reading_date.isSome = true →
    b2.first_reading_date = b.first_reading_date ∧
    b2.first_reading_sitting_id = b.first_reading_sitting_id)

/-- A `sessions` row as the async pipeline writes it (`batch_process.py`
lines 153-165); the date is the `DD-MM-YYYY` string handed to `TO_DATE`. -/
structure SessionRow where
  id : Nat
  date : String
  sitting_no : Option Nat
  parliament : Option Nat
  session_no : Option Nat
  volume_no : Option Nat
  format : Option String
  url : Option String
deriving Repr, DecidableEq

/-- The `sessions` table plus its serial id counter. -/
structure SessionsTable where
  nextId : Nat
  rows : List SessionRow
deriving Repr, DecidableEq

/-- The inline session upsert of `batch_process.py` lines 153-165 (identical
in `process_hansard.py` lines 94-109): `INSERT ... ON CONFLICT (date) DO
UPDATE SET sitting_no = EXCLUDED.sitting_no RETURNING id`.  On conflict with
an existing row of the same date, only `sitting_no` is overwritten. -/
def upsert_session (st : SessionsTable) (date : String)
    (sitting_no parliament session_no volume_no : Option Nat)
    (format url : Option String) : Nat × SessionsTable :=
  match st.rows.find? (fun r => r.date = date) with
  | some row =>
    (row.id,
      { st with rows := st.rows.map (fun r =>
          if r.id = row.id then { r with sitting_no := sitting_no } else r) })
  | none =>
    (st.nextId,
      { nextId := st.nextId + 1,
        rows := st.rows ++
          [{ id := st.nextId, date := date, sitting_no := sitting_no,
             parliament := parliament, session_no := session_no,
             volume_no := volume_no, format := format, url := url }] })

end DbAsync

/-! ### Entity resolver over the store, sqlite variant (`db_sqlite.py`) -/

namespace DbSqlite

/-- Split a character list at every occurrence of `c` (Python
`str.split(sep)` semantics: `n` separators yield `n+1` pieces). -/
def splitOnChar (c : Char) : List Char → List (List Char)
  | [] => [[]]
  | x :: xs =>
    let r := splitOnChar c xs
    if x = c then [] :: r
    else
      match r with
      | [] => [[x]]
      | h :: t => (x :: h) :: t

/-- Digit list to `Nat` (the pieces have been checked to be all digits). -/
def digitsToNat (l : List Char) : Nat :=
  l.foldl (fun n c => n * 10 + (c.toNat - 48)) 0

/-- Gregorian leap year, as `datetime` validates it. -/
def isLeap (y : Nat) : Bool :=
  y % 4 = 0 && (y % 100 ≠ 0 || y % 400 = 0)

/-- Days in month `m` of year `y` (`m` between 1 and 12). -/
def daysInMonth (y m : Nat) : Nat :=
  if m = 2 then (if isLeap y then 29 else 28)
  else if m = 4 || m = 6 || m = 9 || m = 11 then 30
  else 31

/-- Two-digit zero padding, as `strftime` emits for `%d` and `%m`. -/
def pad2 (n : Nat) : String :=
  if n < 10 then "0" ++ toString n else toString n

/-- `strptime(date_str, %d-%m-%Y)`: exactly three dash-separated pieces,
day and month of one or two digits in range, a four-digit year, and a day
valid for the month.  Returns `(day, month, year)` or `none` on
`ValueError`. -/
def strptimeDMY (s : String) : Option (Nat × Nat × Nat) :=
  match splitOnChar (Char.ofNat 45) s.data with
  | [ds, ms, ys] =>
    if ds.all (·.isDigit) && ms.all (·.isDigit) && ys.all (·.isDigit) &&
        1 ≤ ds.length && ds.length ≤ 2 && 1 ≤ ms.length && ms.length ≤ 2 &&
        ys.length = 4 then
      let d := digitsToNat ds
      let m := digitsToNat ms
      let y := digitsToNat ys
      if 1 ≤ m && m ≤ 12 && 1 ≤ d && d ≤ daysInMonth y m then some (d, m, y)
      else none
    else none
  | _ => none

/-- `db_sqlite.py` `parse_date` (lines 60-69): convert `DD-MM-YYYY` to ISO
`YYYY-MM-DD`; falsy input gives `None`; on `ValueError` the input string is
returned unchanged. -/
def parse_date (date_str : String) : Option String :=
  if strEmpty date_str then none
  else
    match strptimeDMY date_str with
    | some (d, m, y) => some (toString y ++ "-" ++ pad2 m ++ "-" ++ pad2 d)
    | none => some date_str

/-- A sqlite `sessions` row (`db_sqlite.py`); uuid primary keys are modelled
as `Nat`, and the stored date may be NULL when a falsy date string was
ingested. -/
structure SessionRow where
  id : Nat
  date : Option String
  sitting_no : Option Nat
  parliament : Option Nat
  session_no : Option Nat
  volume_no : Option Nat
  format : Option String
  url : Option String
deriving Repr, DecidableEq

/-- The sqlite `sessions` table plus an id supply standing for
`generate_id()`. -/
structure SessionsTable where
  nextId : Nat
  rows : List SessionRow
deriving Repr, DecidableEq

/-- `db_sqlite.py` `create_or_update_session` (lines 154-186): look up by
parsed date (SQL `date = NULL` matches nothing); if found, overwrite every
metadata column (`sitting_no, parliament, session_no, volume_no, format,
url`); otherwise insert a fresh row. -/
def create_or_update_session (st : SessionsTable) (date_str : String)
    (sitting_no parliament session_no volume_no : Option Nat)
    (format_type url : Option String) : Nat × SessionsTable :=
  let iso_date := parse_date date_str
  let found : Option SessionRow :=
    match iso_date with
    | none => none
    | some d => st.rows.find? (fun r => r.date = some d)
  match found with
  | some row =>
    (row.id,
      { st with rows := st.rows.map (fun r =>
          if r.id = row.id then
            { r with sitting_no := sitting_no, parliament := parliament,
                     session_no := session_no, volume_no := volume_no,
                     format := format_type, url := url }
          else r) })
  | none =>
    (st.nextId,
      { nextId := st.nextId + 1,
        rows := st.rows ++
          [{ id := st.nextId, date := iso_date, sitting_no := sitting_no,
             parliament := parliament, session_no := session_no,
             volume_no := volume_no, format := format_type, url := url }] })

end DbSqlite

/-! ### Duplicate section reconciliation (`cleanup_duplicates.py`,
`cleanup_duplicates_sqlite.py`)

Both variants run the identical window query: partition the sections of the
sittings in the requested date range by `(sitting_id, section_title,
section_type)`, rank each partition by `created_at` (descending under the
keep-newest flag) with `id` ascending as tie-break, and delete every row of
rank above one.  Dates and `created_at` timestamps are modelled as `Nat`
ordinals — the code only compares them. -/

namespace CleanupDuplicates

/-- A `sections` row, restricted to the columns the cleanup reads. -/
structure SectionRow where
  id : Nat
  sitting_id : Nat
  section_title : String
  section_type : String
  created_at : Nat
deriving Repr, DecidableEq

/-- The window partition key `(sitting_id, section_title, section_type)`. -/
def sameKey (a b : SectionRow) : Bool :=
  decide (a.sitting_id = b.sitting_id ∧ a.section_title = b.section_title ∧
    a.section_type = b.section_type)

/-- `a` strictly precedes `b` under `ORDER BY created_at {DESC|ASC}, id ASC`.
Distinct ids make this a strict total order within a partition. -/
def beforeInOrder (keepNewest : Bool) (a b : SectionRow) : Bool :=
  match keepNewest with
  | true =>
    decide (b.created_at < a.created_at ∨
      (a.created_at = b.created_at ∧ a.id < b.id))
  | false =>
    decide (a.created_at < b.created_at ∨
      (a.created_at = b.created_at ∧ a.id < b.id))

/-- `ROW_NUMBER()` of `r` over the scoped rows: one plus the number of rows
of the same partition strictly before it (well defined because ids are
unique). -/
def rnum (inScope : List SectionRow) (keepNewest : Bool) (r : SectionRow) : Nat :=
  1 + (inScope.filter (fun x => sameKey x r && beforeInOrder keepNewest x r)).length

/-- `cleanup` of `cleanup_duplicates.py` lines 9-52 (the sqlite variant runs
the same delete): select the sittings whose date lies in the inclusive
range; if none, return without deleting; otherwise delete, among the
sections of those sittings, every row whose rank in its partition exceeds
one.  `sittings` are `(id, date)` pairs. -/
def cleanup (sittings : List (Nat × Nat)) (startDate endDate : Nat)
    (keepNewest : Bool) (sections : List SectionRow) : List SectionRow :=
  let sitting_ids :=
    (sittings.filter (fun s => startDate ≤ s.2 && s.2 ≤ endDate)).map (·.1)
  if sitting_ids.isEmpty then sections
  else
    let inScope := sections.filter (fun r => sitting_ids.contains r.sitting_id)
    let deleted_ids :=
      (inScope.filter (fun r => 1 < rnum inScope keepNewest r)).map (·.id)
    sections.filter (fun r => !(deleted_ids.contains r.id))

/-- Concrete sample store for evaluating the dedup pass: three rows of one
partition in sitting 1 (ids 2 and 3 tie on creation time) and one
out-of-range row in sitting 2. -/
def sampleSections : List SectionRow :=
  [ { id := 1, sitting_id := 1, section_title := "Q", section_type := "QN",
      created_at := 100 },
    { id := 2, sitting_id := 1, section_title := "Q", section_type := "QN",
      created_at := 90 },
    { id := 3, sitting_id := 1, section_title := "Q", section_type := "QN",
      created_at := 90 },
    { id := 4, sitting_id := 2, section_title := "Q", section_type := "QN",
      created_at := 80 } ]

/-- One sitting, id 1, on day 10. -/
def sampleSittings : List (Nat × Nat) := [(1, 10)]

end CleanupDuplicates

/-! ### Duplicate bill reconciliation (`merge_bills.py`) -/

namespace MergeBills

/-- A `bills` row, restricted to the columns the merge reads (`summary` and
`ministry_id` are fetched but never used by the decision). -/
structure BillRow where
  id : Nat
  title : String
  created_at : Nat
deriving Repr, DecidableEq

/-- A `sections` row, restricted to its id and bill reference. -/
structure SectionPtr where
  id : Nat
  bill_id : Option Nat
deriving Repr, DecidableEq

/-- The store as the merge job sees it. -/
structure Store where
  bills : List BillRow
  sections : List SectionPtr
deriving Repr, DecidableEq

/-- SQL `trim` (strip spaces from both ends). -/
def trimStr (s : String) : String :=
  String.mk (((s.data.dropWhile (· = ' ')).reverse.dropWhile (· = ' ')).reverse)

/-- The grouping key `lower(trim(b.title))` of the duplicate query. -/
def normTitle (t : String) : String := lowerStr (trimStr t)

/-- Number of sections linked to bill id `b`
(`SELECT COUNT(*) FROM sections WHERE bill_id = b.id`). -/
def sectionCount (sections : List SectionPtr) (b : Nat) : Nat :=
  (sections.filter (fun s => s.bill_id = some b)).length

/-- The ids grouped under normalized title `k` (`array_agg(b.id)`). -/
def groupIds (bills : List BillRow) (k : String) : List Nat :=
  (bills.filter (fun b => normTitle b.title = k)).map (·.id)

/-- The duplicate groups of the initial store: every normalized title held
by more than one bill row, with its aggregated ids.  The groups are computed
once, up front, as in the source. -/
def dupGroups (bills : List BillRow) : List (List Nat) :=
  (((bills.map (fun b => normTitle b.title)).dedup).filter
    (fun k => 1 < (groupIds bills k).length)).map (groupIds bills)

/-- `a` strictly precedes `b` under `ORDER BY section_count DESC,
created_at ASC`. -/
def betterCand (sections : List SectionPtr) (a b : BillRow) : Bool :=
  decide (sectionCount sections b.id < sectionCount sections a.id ∨
    (sectionCount sections a.id = sectionCount sections b.id ∧
      a.created_at < b.created_at))

/-- `candidates[0]` after the details query: the first minimal element under
the candidate order (maximal section count, then earliest creation). -/
def pickMaster (sections : List SectionPtr) : List BillRow → Option BillRow
  | [] => none
  | c :: cs =>
    some (cs.foldl (fun best x => if betterCand sections x best then x else best) c)

/-- Step 2 of a group: `UPDATE sections SET bill_id = master WHERE bill_id =
ANY(dup_ids)`. -/
def updateSections (st : Store) (dup_ids : List Nat) (masterId : Nat) : Store :=
  { st with sections := st.sections.map (fun s =>
      match s.bill_id with
      | some b => if dup_ids.contains b then { s with bill_id := some masterId } else s
      | none => s) }

/-- Step 3 of a group: `DELETE FROM bills WHERE id = ANY(dup_ids)`. -/
def deleteBills (st : Store) (dup_ids : List Nat) : Store :=
  { st with bills := st.bills.filter (fun b => !(dup_ids.contains b.id)) }

/-- The candidates and duplicate ids a group resolves to against the current
store: re-query the group ids, order, split off the master. -/
def groupPlan (st : Store) (ids : List Nat) : Option (Nat × List Nat) :=
  let candidates := st.bills.filter (fun b => ids.contains b.id)
  match pickMaster st.sections candidates with
  | none => none
  | some master =>
    some (master.id, (candidates.filter (fun c => c.id ≠ master.id)).map (·.id))

/-- Processing of one duplicate group (`merge_bills.py` lines 32-79):
reassign the sections of every non-master bill to the master, then delete
the non-master bills.  Nothing happens when the re-queried candidate list is
empty or leaves no duplicates. -/
def mergeGroup (st : Store) (ids : List Nat) : Store :=
  match groupPlan st ids with
  | none => st
  | some (_, []) => st
  | some (masterId, d :: ds) =>
    deleteBills (updateSections st (d :: ds) masterId) (d :: ds)

/-- The store states a group run passes through, in order: after the section
update, then after the bill delete (each statement commits on its own). -/
def mergeGroupTrace (st : Store) (ids : List Nat) : List Store :=
  match groupPlan st ids with
  | none => []
  | some (_, []) => []
  | some (masterId, d :: ds) =>
    [updateSections st (d :: ds) masterId,
     deleteBills (updateSections st (d :: ds) masterId) (d :: ds)]

/-- Run the remaining groups, collecting every intermediate store state. -/
def mergeRunTrace (st : Store) : List (List Nat) → List Store
  | [] => []
  | ids :: rest => mergeGroupTrace st ids ++ mergeRunTrace (mergeGroup st ids) rest

/-- `merge` of `merge_bills.py` lines 9-82: compute the duplicate groups of
the initial store, then process them in order. -/
def merge (st : Store) : Store :=
  (dupGroups st.bills).foldl mergeGroup st

/-- All intermediate store states of a full merge run. -/
def mergeTrace (st : Store) : List Store :=
  mergeRunTrace st (dupGroups st.bills)

/-- Referential integrity: every section's bill reference names an existing
bill row. -/
def refIntact (st : Store) : Bool :=
  st.sections.all (fun s =>
    match s.bill_id with
    | none => true
    | some b => st.bills.any (fun x => x.id = b))

/-- Specification view of a group plan against the initial store: the
duplicate ids a group will shed (empty when the group resolves to no
candidates). -/
def dupIdsOf (st0 : Store) (ids : List Nat) : List Nat :=
  match groupPlan st0 ids with
  | some (_, d) => d
  | none => []

/-- Specification view of a group plan against the initial store: the id of
the master the group keeps (`0` when the group resolves to no candidates —
never consulted in that case). -/
def masterIdOf (st0 : Store) (ids : List Nat) : Nat :=
  match groupPlan st0 ids with
  | some (m, _) => m
  | none => 0

/-- Where a section points after the groups in `processed` have been merged,
as planned against the initial store: a reference into some processed
group's duplicates moves to that group's master; everything else is
untouched. -/
def remapAll (st0 : Store) (processed : List (List Nat)) (s : SectionPtr) : SectionPtr :=
  match s.bill_id with
  | none => s
  | some b =>
    match processed.findSome? (fun ids =>
        if (dupIdsOf st0 ids).contains b then some (masterIdOf st0 ids) else none) with
    | some mid => { s with bill_id := some mid }
    | none => s

/-- The run invariant: after processing the groups in `processed`, the bills
table has shed exactly the planned duplicates and every section points as
planned. -/
def MergeInv (st0 : Store) (processed : List (List Nat)) (st : Store) : Prop :=
  st.bills = st0.bills.filter (fun b =>
    !(processed.any (fun ids => (dupIdsOf st0 ids).contains b.id))) ∧
  st.sections = st0.sections.map (remapAll st0 processed)

/-- A concrete store with one duplicate-title pair: equal section counts,
so the earlier-created row 1 is the master. -/
def c6SampleStore : Store :=
  { bills := [{ id := 1, title := "A Bill", created_at := 5 },
              { id := 2, title := "a bill ", created_at := 7 }],
    sections := [{ id := 1, bill_id := some 2 },
                 { id := 2, bill_id := some 1 },
                 { id := 3, bill_id := none }] }

end MergeBills

/-! ### The async ingestion pipeline (`batch_process.py` with `db_async.py`)

One `ingest_session(date)` run over the whole store.  The `asyncio.gather`
fan-outs are serialized in task-submission order; every claim under study
concerns row multisets and counts, which the cooperative interleaving of
these independently keyed writes does not affect. -/

namespace BatchProcess

/-- A `members` row. -/
structure MemberRow where
  id : Nat
  name : String
deriving Repr, DecidableEq

/-- A `ministries` reference row (read-only for the pipeline). -/
structure MinistryRow where
  id : Nat
  acronym : String
deriving Repr, DecidableEq

/-- A `session_attendance` row, unique per `(session_id, member_id)`. -/
structure AttendanceRow where
  session_id : Nat
  member_id : Nat
  present : Bool
  constituency : Option String
  designation : Option String
deriving Repr, DecidableEq

/-- A `section_speakers` row, unique per `(section_id, member_id)`. -/
structure SpeakerRow where
  section_id : Nat
  member_id : Nat
  constituency : Option String
  designation : Option String
deriving Repr, DecidableEq

/-- A `sections` row as inserted by `process_section`. -/
structure SectionRow where
  id : Nat
  session_id : Nat
  ministry_id : Option Nat
  bill_id : Option Nat
  category : String
  section_type : String
  section_title : String
  content_html : String
  content_plain : String
  section_order : Nat
  source_url : Option String
deriving Repr, DecidableEq

/-- The whole store, one table per field, with per-table serial counters. -/
structure DB where
  sessionsT : DbAsync.SessionsTable
  nextMemberId : Nat
  members : List MemberRow
  ministries : List MinistryRow
  billsT : DbAsync.BillsTable
  nextSectionId : Nat
  sections : List SectionRow
  attendance : List AttendanceRow
  speakers : List SpeakerRow
deriving Repr, DecidableEq

/-- `db_async.py` `find_or_create_member` (lines 41-55): look up by exact
name, insert when absent. -/
def find_or_create_member (db : DB) (name : String) : Nat × DB :=
  match db.members.find? (fun m => m.name = name) with
  | some m => (m.id, db)
  | none =>
    (db.nextMemberId,
      { db with nextMemberId := db.nextMemberId + 1,
                members := db.members ++ [{ id := db.nextMemberId, name := name }] })

/-- `db_async.py` `find_ministry_by_acronym` (lines 57-61): falsy acronym
gives `None`; otherwise a pure lookup of the reference table. -/
def find_ministry_by_acronym (db : DB) (acronym : Option String) : Option Nat :=
  match acronym with
  | none => none
  | some a =>
    if strEmpty a then none
    else (db.ministries.find? (fun m => m.acronym = a)).map (·.id)

/-- `db_async.py` `add_sitting_attendance` (lines 109-118, the attendance
upsert also in `db.py` lines 57-66): `ON CONFLICT (session_id, member_id) DO
UPDATE` of presence, constituency and designation. -/
def add_session_attendance (db : DB) (session_id member_id : Nat) (present : Bool)
    (constituency designation : Option String) : DB :=
  if db.attendance.any (fun r =>
      decide (r.session_id = session_id ∧ r.member_id = member_id)) then
    { db with attendance := db.attendance.map (fun r =>
        if r.session_id = session_id ∧ r.member_id = member_id then
          { r with present := present, constituency := constituency,
                   designation := designation }
        else r) }
  else
    { db with attendance := db.attendance ++
        [{ session_id := session_id, member_id := member_id, present := present,
           constituency := constituency, designation := designation }] }

/-- `db_async.py` `add_section_speaker` (lines 101-107): `ON CONFLICT
(section_id, member_id) DO NOTHING`. -/
def add_section_speaker (db : DB) (section_id member_id : Nat)
    (constituency designation : Option String) : DB :=
  if db.speakers.any (fun r =>
      decide (r.section_id = section_id ∧ r.member_id = member_id)) then db
  else
    { db with speakers := db.speakers ++
        [{ section_id := section_id, member_id := member_id,
           constituency := constituency, designation := designation }] }

/-- `batch_process.py` `process_attendance` (lines 206-215). -/
def process_attendance (db : DB) (session_id : Nat) (mp : MP) (present : Bool) : DB :=
  let (member_id, db) := find_or_create_member db mp.name
  add_session_attendance db session_id member_id present mp.constituency mp.appointment

/-- `BILL_TYPES`, imported by `batch_process.py` from `parliament_session.py`
(a module not among the sources); its members are fixed to the first-reading
type BI and the second-reading type BP by `process_hansard.py` line 162 and
`batch_process_sqlite.py` lines 171-179, matching spec §4.3. -/
def BILL_TYPES : List String := ["BI", "BP"]

/-- `batch_process.py` `process_speaker` (lines 268-276). -/
def process_speaker (db : DB) (section_id : Nat) (speaker : MP) : DB :=
  let (member_id, db) := find_or_create_member db speaker.name
  add_section_speaker db section_id member_id speaker.constituency speaker.appointment

/-- `batch_process.py` `process_section` (lines 217-266): attribute a
ministry, resolve a bill for bill-typed sections (first-reading fields only
for type BI), insert the section row unconditionally (the insert carries no
conflict clause), then link the speakers. -/
def process_section (db : DB) (session_id : Nat) (sec : SectionIn)
    (date_str : String) : Nat × DB :=
  let ministry_acronym := detect_ministry sec
  let ministry_id := find_ministry_by_acronym db ministry_acronym
  let (bill_id, db) :=
    if BILL_TYPES.contains sec.section_type then
      let first_reading_date := if sec.section_type = "BI" then some date_str else none
      let first_reading_session_id :=
        if sec.section_type = "BI" then some session_id else none
      let (bid, bt) := DbAsync.find_or_create_bill db.billsT sec.title ministry_id
        first_reading_date first_reading_session_id
      ((some bid : Option Nat), { db with billsT := bt })
    else (none, db)
  let section_id := db.nextSectionId
  let db :=
    { db with nextSectionId := section_id + 1,
              sections := db.sections ++
        [{ id := section_id, session_id := session_id, ministry_id := ministry_id,
           bill_id := bill_id, category := sec.category,
           section_type := sec.section_type, section_title := sec.title,
           content_html := sec.content_html, content_plain := sec.content_plain,
           section_order := sec.order, source_url := sec.source_url }] }
  (section_id, sec.speakers.foldl (fun d sp => process_speaker d section_id sp) db)

/-- One externally fetched sitting: the metadata row plus attendance lists
and sections (`parliament_session.get_metadata() / get_sections()`). -/
structure SittingIn where
  date : String
  sitting_no : Option Nat
  parliament : Option Nat
  session_no : Option Nat
  volume_no : Option Nat
  format : Option String
  present_members : List MP
  absent_members : List MP
  sections : List SectionIn
deriving Repr, DecidableEq

/-- `batch_process.py` `ingest_session` (lines 127-204) given the already
fetched sitting: return with no writes when the source has no sections;
otherwise upsert the session row, write attendance for present then absent
members, then process each section in order.  Returns the session id. -/
def ingest_session (db : DB) (inp : SittingIn) : Option Nat × DB :=
  if inp.sections.isEmpty then (none, db)
  else
    let url := "https://sprs.parl.gov.sg/search/#/fullreport?sittingdate=" ++ inp.date
    let (session_id, st) := DbAsync.upsert_session db.sessionsT inp.date inp.sitting_no
      inp.parliament inp.session_no inp.volume_no inp.format (some url)
    let db := { db with sessionsT := st }
    let db := inp.present_members.foldl
      (fun d mp => process_attendance d session_id mp true) db
    let db := inp.absent_members.foldl
      (fun d mp => process_attendance d session_id mp false) db
    let db := inp.sections.foldl
      (fun d sec => (process_section d session_id sec inp.date).2) db
    (some session_id, db)

/-- The monotone store facts every pipeline write preserves: members only
get appended (so an exact-name lookup, once successful, is stable),
attendance keys persist, and bill titles persist. -/
def Extends (db db2 : DB) : Prop :=
  (∃ t, db2.members = db.members ++ t) ∧
  (∀ sid mid,
    db.attendance.any (fun r =>
      decide (r.session_id = sid ∧ r.member_id = mid)) = true →
    db2.attendance.any (fun r =>
      decide (r.session_id = sid ∧ r.member_id = mid)) = true) ∧
  (∀ title : String,
    db.billsT.rows.any (fun b => b.title = title) = true →
    db2.billsT.rows.any (fun b => b.title = title) = true)

/-- After a first ingestion, an attendance entry is ready for `mp`: the
member resolves by name and the `(session, member)` attendance key exists,
so a repeated `process_attendance` updates in place. -/
def attReady (db : DB) (sid : Nat) (mp : MP) : Prop :=
  ∃ m, db.members.find? (fun x => x.name = mp.name) = some m ∧
    db.attendance.any (fun r =>
      decide (r.session_id = sid ∧ r.member_id = m.id)) = true

/-- After a first ingestion, a bill row with this exact title exists, so a
repeated `find_or_create_bill` finds instead of inserting. -/
def billReady (db : DB) (title : String) : Prop :=
  db.billsT.rows.any (fun b => b.title = title) = true

/-- An empty store, as after `schema.sql` alone. -/
def emptyDB : DB :=
  { sessionsT := { nextId := 1, rows := [] }, nextMemberId := 1,
    members := [], ministries := [], billsT := { nextId := 1, rows := [] },
    nextSectionId := 1, sections := [], attendance := [], speakers := [] }

/-- A question section with no recognisable ministry text. -/
def sampleSection : SectionIn :=
  { category := "question", section_type := "OA", title := "Road Safety",
    content_html := "", content_plain := "", order := 1,
    source_url := none, speakers := [] }

/-- A one-section sitting. -/
def sampleSitting : SittingIn :=
  { date := "14-01-2026", sitting_no := some 1, parliament := some 14,
    session_no := some 2, volume_no := some 95, format := some "html",
    present_members := [], absent_members := [],
    sections := [sampleSection] }

end BatchProcess

/-! ## Theorems -/

/-- No key of either designation table is the empty string. -/
theorem designation_keys_nonempty :
    (∀ kv ∈ BatchProcess.DESIGNATION_TO_MINISTRY, kv.1.data ≠ []) ∧
    (∀ kv ∈ BatchProcessSqlite.DESIGNATION_TO_MINISTRY, kv.1.data ≠ []) := by
  decide

/-- If some non-PMO entry of the table matches the preamble, the deferral
scan returns a non-PMO acronym, whatever the deferral flag holds. -/
theorem contentScan_some_ne_pmo (pre : String) :
    ∀ (l : List (String × String)) (pm : Bool),
    (∃ kv ∈ l, kv.2 ≠ "PMO" ∧ substrOf kv.1 pre = true) →
    ∃ a, BatchProcessSqlite.contentScan pre l pm = some a ∧ a ≠ "PMO" := by
  intro l
  induction l with
  | nil => intro pm h; simp at h
  | cons kv rest ih =>
    intro pm h
    obtain ⟨w, hw, hne, hsub⟩ := h
    rw [List.mem_cons] at hw
    by_cases hs : substrOf kv.1 pre = true
    · by_cases hp : kv.2 = "PMO"
      · have hwrest : w ∈ rest := by
          rcases hw with rfl | hw
          · exact absurd hp hne
          · exact hw
        simpa [BatchProcessSqlite.contentScan, hs, hp] using
          ih true ⟨w, hwrest, hne, hsub⟩
      · exact ⟨kv.2, by simp [BatchProcessSqlite.contentScan, hs, hp], hp⟩
    · have hwrest : w ∈ rest := by
        rcases hw with rfl | hw
        · exact absurd hsub hs
        · exact hw
      simpa [BatchProcessSqlite.contentScan, hs] using ih pm ⟨w, hwrest, hne, hsub⟩

/-- If the deferral scan answers PMO, no non-PMO entry matched the
preamble. -/
theorem contentScan_pmo_only (pre : String) :
    ∀ (l : List (String × String)) (pm : Bool),
    BatchProcessSqlite.contentScan pre l pm = some "PMO" →
    ∀ kv ∈ l, kv.2 ≠ "PMO" → substrOf kv.1 pre = false := by
  intro l
  induction l with
  | nil => intro pm _ kv hkv; simp at hkv
  | cons kv0 rest ih =>
    intro pm h kv hkv hne
    rw [List.mem_cons] at hkv
    by_cases hs : substrOf kv0.1 pre = true
    · by_cases hp : kv0.2 = "PMO"
      · rcases hkv with rfl | hkv
        · exact absurd hp hne
        · refine ih true ?_ kv hkv hne
          simpa [BatchProcessSqlite.contentScan, hs, hp] using h
      · rw [BatchProcessSqlite.contentScan] at h
        simp only [hs, if_true, hp, if_false] at h
        exact absurd (Option.some_injective _ h) hp
    · rcases hkv with rfl | hkv
      · simpa using hs
      · refine ih pm ?_ kv hkv hne
        simpa [BatchProcessSqlite.contentScan, hs] using h

/-- C3.  The sqlite heuristic defers a PMO-designation hit: whenever some
non-PMO designation of the table occurs in the preamble the result is a
non-PMO acronym, and a PMO answer certifies that no non-PMO designation
occurred.  The claim fails on the async variant of `batch_process.py`, which
scans the table in insertion order with the PMO entry first and no deferral:
content containing both its PMO-mapped designation and "Minister for
Finance" attributes PMO, not MOF. -/
theorem c3_pmo_deferral :
    (∀ content : String,
      (∃ kv ∈ BatchProcessSqlite.DESIGNATION_TO_MINISTRY, kv.2 ≠ "PMO" ∧
        substrOf kv.1 (takeStr content 1000) = true) →
      ∃ a, BatchProcessSqlite.detect_ministry_from_content content = some a ∧
        a ≠ "PMO") ∧
    (∀ content : String,
      BatchProcessSqlite.detect_ministry_from_content content = some "PMO" →
      ∀ kv ∈ BatchProcessSqlite.DESIGNATION_TO_MINISTRY, kv.2 ≠ "PMO" →
        substrOf kv.1 (takeStr content 1000) = false) ∧
    BatchProcess.detect_ministry_from_content
      ("And the Minister in the Prime Minister" ++ apos ++
        "s Office and Minister for Finance replied") = some "PMO" ∧
    BatchProcessSqlite.detect_ministry_from_content
      "He asked the Prime Minister and Minister for Finance" = some "MOF" ∧
    BatchProcess.detect_ministry_from_content
      "He asked the Prime Minister and Minister for Finance" = some "MOF" := by
  refine ⟨?_, ?_, by decide, by decide, by decide⟩
  · intro content h
    have hne : strEmpty content = false := by
      by_contra hcon
      rw [Bool.not_eq_false] at hcon
      obtain ⟨kv, hkv, _, hsub⟩ := h
      have hdata : content.data = [] := by
        simpa [strEmpty, List.isEmpty_iff] using hcon
      rw [substrOf, takeStr, hdata] at hsub
      simp only [List.take_nil, decide_eq_true_eq] at hsub
      exact designation_keys_nonempty.2 kv hkv (List.eq_nil_of_infix_nil hsub)
    rw [BatchProcessSqlite.detect_ministry_from_content, hne]
    simpa using contentScan_some_ne_pmo (takeStr content 1000)
      BatchProcessSqlite.DESIGNATION_TO_MINISTRY false h
  · intro content h kv hkv hne
    rw [BatchProcessSqlite.detect_ministry_from_content] at h
    by_cases he : strEmpty content = true
    · simp [he] at h
    · rw [Bool.not_eq_true] at he
      rw [he] at h
      simp only [Bool.false_eq_true, if_false] at h
      exact contentScan_pmo_only (takeStr content 1000)
        BatchProcessSqlite.DESIGNATION_TO_MINISTRY false h kv hkv hne

/-- C3, witness: content naming the Prime Minister together with the
Minister for Finance resolves to a non-PMO acronym under the sqlite
heuristic. -/
theorem c3_pmo_deferral_witness :
    ∃ a, BatchProcessSqlite.detect_ministry_from_content
      "He asked the Prime Minister and Minister for Finance" = some a ∧
      a ≠ "PMO" :=
  c3_pmo_deferral.1 "He asked the Prime Minister and Minister for Finance"
    (by decide)

/-- C4.  The sqlite `process_section` never attributes a ministry to a
section of category `adjournment_motion`.  The async `batch_process.py`
pipeline, whose `detect_ministry` ignores the category, violates the claim:
an adjournment-motion section whose preamble names the Minister for Health
is attributed MOH, and `process_section` stores that ministry reference on
the row. -/
theorem c4_adjournment_exemption :
    (∀ sec : BatchProcess.SectionIn, sec.category = "adjournment_motion" →
      BatchProcessSqlite.process_section_ministry sec = none) ∧
    BatchProcess.detect_ministry
      { category := "adjournment_motion", section_type := "AM",
        title := "Hospital Waiting Times", content_html := "",
        content_plain := "He asked the Minister for Health about waiting times",
        order := 1, source_url := none, speakers := [] } = some "MOH" ∧
    ((BatchProcess.process_section
        { sessionsT := { nextId := 2, rows := [] }, nextMemberId := 1,
          members := [], ministries := [{ id := 3, acronym := "MOH" }],
          billsT := { nextId := 1, rows := [] }, nextSectionId := 1,
          sections := [], attendance := [], speakers := [] } 1
        { category := "adjournment_motion", section_type := "AM",
          title := "Hospital Waiting Times", content_html := "",
          content_plain := "He asked the Minister for Health about waiting times",
          order := 1, source_url := none, speakers := [] }
        "02-01-2024").2.sections.map (fun r => r.ministry_id)) = [some 3] := by
  refine ⟨?_, by decide, by decide⟩
  intro sec h
  rw [BatchProcessSqlite.process_section_ministry, h]
  simp

/-- C4, witness: the sqlite attribution of a concrete adjournment-motion
section naming the Minister for Health is none. -/
theorem c4_adjournment_exemption_witness :
    BatchProcessSqlite.process_section_ministry
      { category := "adjournment_motion", section_type := "AM",
        title := "Hospital Waiting Times", content_html := "",
        content_plain := "He asked the Minister for Health about waiting times",
        order := 1, source_url := none, speakers := [] } = none :=
  c4_adjournment_exemption.1 _ rfl

/-- C9.  The sqlite designation scan lowercases both sides, so any
designation containing a table keyword in any casing maps to an acronym.
The async `batch_process.py` variant lowercases only the designation and
then tests the mixed-case keyword for containment, so the concrete
designation "Minister for Health" — which contains "minister"
case-insensitively and a table keyword verbatim — maps to nothing, both
directly and through the speaker scan. -/
theorem c9_designation_containment :
    BatchProcess.detect_ministry_from_designation (some "Minister for Health")
      = none ∧
    BatchProcess.detect_ministry_from_speakers
      [{ name := "Ong Ye Kung", constituency := none,
         appointment := some "Minister for Health" }] = none ∧
    BatchProcessSqlite.detect_ministry_from_designation
      (some "Minister for Health") = some "MOH" ∧
    (∀ d : String, ∀ kv ∈ BatchProcessSqlite.DESIGNATION_TO_MINISTRY,
      substrOf (lowerStr kv.1) (lowerStr d) = true →
      (BatchProcessSqlite.detect_ministry_from_designation (some d)).isSome
        = true) := by
  refine ⟨by decide, by decide, by decide, ?_⟩
  intro d kv hkv hsub
  have hne : strEmpty d = false := by
    by_contra hcon
    rw [Bool.not_eq_false] at hcon
    have hdata : d.data = [] := by
      simpa [strEmpty, List.isEmpty_iff] using hcon
    rw [substrOf] at hsub
    simp only [lowerStr, hdata, List.map_nil, decide_eq_true_eq] at hsub
    have : (kv.1.data.map Char.toLower) = [] := List.eq_nil_of_infix_nil hsub
    rw [List.map_eq_nil_iff] at this
    exact designation_keys_nonempty.2 kv hkv this
  rw [BatchProcessSqlite.detect_ministry_from_designation, hne]
  simp only [Bool.false_eq_true, if_false]
  cases hfind : List.find? (fun kv => substrOf (lowerStr kv.1) (lowerStr d))
      BatchProcessSqlite.DESIGNATION_TO_MINISTRY with
  | none =>
    rw [List.find?_eq_none] at hfind
    exact absurd hsub (by simpa using hfind kv hkv)
  | some x => simp [hfind]

/-- C9, witness: a fully upper-case rendition of a table designation still
resolves under the sqlite scan. -/
theorem c9_designation_containment_witness :
    (BatchProcessSqlite.detect_ministry_from_designation
      (some "MINISTER FOR HEALTH")).isSome = true :=
  c9_designation_containment.2.2.2 "MINISTER FOR HEALTH"
    ("Minister for Health", "MOH") (by decide) (by decide)

/-! ### Bill resolver lemmas (C2, C10) -/

namespace DbAsync

theorem billMono_refl (b : Bill) : billMono b b :=
  ⟨rfl, rfl, fun _ => rfl, fun _ => ⟨rfl, rfl⟩⟩

theorem billMono_trans {a b c : Bill} (h1 : billMono a b) (h2 : billMono b c) :
    billMono a c := by
  obtain ⟨hid1, ht1, hm1, hf1⟩ := h1
  obtain ⟨hid2, ht2, hm2, hf2⟩ := h2
  refine ⟨hid2.trans hid1, ht2.trans ht1, ?_, ?_⟩
  · intro hs
    have e1 := hm1 hs
    have : b.ministry_id.isSome = true := by rw [e1]; exact hs
    exact (hm2 this).trans e1
  · intro hs
    obtain ⟨e1, e2⟩ := hf1 hs
    have : b.first_reading_date.isSome = true := by rw [e1]; exact hs
    obtain ⟨e3, e4⟩ := hf2 this
    exact ⟨e3.trans e1, e4.trans e2⟩

/-- Updating the one row with `row.id` in a Nodup-keyed row list preserves
the id sequence and is field-monotone whenever the update of `row` itself
is. -/
theorem update_rows_mono (rows : List Bill) (row : Bill) (hrow : row ∈ rows)
    (hnd : (rows.map (fun b => b.id)).Nodup) (f : Bill → Bill)
    (hmono : billMono row (f row)) :
    (rows.map (fun b => if b.id = row.id then f b else b)).map (fun b => b.id)
        = rows.map (fun b => b.id) ∧
    ∀ b ∈ rows, ∃ b2 ∈ rows.map (fun b => if b.id = row.id then f b else b),
      billMono b b2 := by
  have hinj : ∀ b ∈ rows, b.id = row.id → b = row := by
    intro b hb hid
    exact List.inj_on_of_nodup_map hnd hb hrow hid
  constructor
  · rw [List.map_map]
    refine List.map_congr_left ?_
    intro b hb
    by_cases h : b.id = row.id
    · have hb' : b = row := hinj b hb h
      subst hb'
      simp [h, hmono.1]
    · simp [h]
  · intro b hb
    refine ⟨if b.id = row.id then f b else b, List.mem_map_of_mem _ hb, ?_⟩
    by_cases h : b.id = row.id
    · have hb' : b = row := hinj b hb h
      subst hb'
      simpa [h] using hmono
    · simp only [h, if_false]
      exact billMono_refl b

/-- One `find_or_create_bill` call preserves table well-formedness and is
field-monotone on every pre-existing row. -/
theorem billStep_mono (st : BillsTable) (c : BillCall) (hwf : st.WF) :
    (billStep st c).WF ∧
    ∀ b ∈ st.rows, ∃ b2 ∈ (billStep st c).rows, billMono b b2 := by
  obtain ⟨hnd, hfresh⟩ := hwf
  rw [billStep, find_or_create_bill]
  cases hfind : st.rows.find? (fun b => b.title = c.title) with
  | none =>
    simp only
    constructor
    · constructor
      · rw [List.map_append, List.map_singleton]
        rw [List.nodup_append]
        refine ⟨hnd, List.nodup_singleton _, ?_⟩
        intro x hx
        simp only [List.mem_singleton]
        obtain ⟨b, hb, rfl⟩ := List.mem_map.mp hx
        exact fun he => absurd (he ▸ hfresh b hb) (lt_irrefl _)
      · intro b hb
        rcases List.mem_append.mp hb with hb | hb
        · exact Nat.lt_trans (hfresh b hb) (Nat.lt_succ_self _)
        · rw [List.mem_singleton] at hb
          subst hb
          exact Nat.lt_succ_self _
    · intro b hb
      exact ⟨b, List.mem_append_left _ hb, billMono_refl b⟩
  | some row =>
    have hrow : row ∈ st.rows := List.mem_of_find?_eq_some hfind
    simp only
    set g1 := c.ministry_id.isSome && row.ministry_id.isNone with hg1
    set g2 := c.first_reading_date.isSome && row.first_reading_date.isNone with hg2
    cases h1 : g1 <;> cases h2 : g2
    · -- no update at all
      simp only [h1, h2, Bool.false_eq_true, if_false]
      exact ⟨⟨hnd, hfresh⟩, fun b hb => ⟨b, hb, billMono_refl b⟩⟩
    · -- first-reading update only
      simp only [h1, h2, Bool.false_eq_true, if_false, if_true]
      have hdn : row.first_reading_date.isNone = true := by
        have h := h2
        rw [hg2, Bool.and_eq_true] at h
        exact h.2
      have hmono : billMono row
          { row with first_reading_date := c.first_reading_date,
                     first_reading_sitting_id := c.first_reading_sitting_id } := by
        refine ⟨rfl, rfl, fun _ => rfl, fun hs => ?_⟩
        rw [Option.isNone_iff_eq_none.mp hdn] at hs
        simp at hs
      obtain ⟨hids, hmem⟩ := update_rows_mono st.rows row hrow hnd
        (fun b => { b with first_reading_date := c.first_reading_date,
                           first_reading_sitting_id := c.first_reading_sitting_id })
        hmono
      refine ⟨⟨by rw [hids]; exact hnd, ?_⟩, hmem⟩
      intro b hb
      obtain ⟨a, ha, rfl⟩ := List.mem_map.mp hb
      by_cases h : a.id = row.id
      · simp only [if_pos h]
        exact hfresh a ha
      · simp only [if_neg h]
        exact hfresh a ha
    · -- ministry update only
      simp only [h1, h2, Bool.false_eq_true, if_false, if_true]
      have hdn : row.ministry_id.isNone = true := by
        have h := h1
        rw [hg1, Bool.and_eq_true] at h
        exact h.2
      have hmono : billMono row { row with ministry_id := c.ministry_id } := by
        refine ⟨rfl, rfl, fun hs => ?_, fun _ => ⟨rfl, rfl⟩⟩
        rw [Option.isNone_iff_eq_none.mp hdn] at hs
        simp at hs
      obtain ⟨hids, hmem⟩ := update_rows_mono st.rows row hrow hnd
        (fun b => { b with ministry_id := c.ministry_id }) hmono
      refine ⟨⟨by rw [hids]; exact hnd, ?_⟩, hmem⟩
      intro b hb
      obtain ⟨a, ha, rfl⟩ := List.mem_map.mp hb
      by_cases h : a.id = row.id
      · simp only [if_pos h]
        exact hfresh a ha
      · simp only [if_neg h]
        exact hfresh a ha
    · -- both updates
      simp only [h1, h2, if_true]
      have hmn : row.ministry_id.isNone = true := by
        have h := h1
        rw [hg1, Bool.and_eq_true] at h
        exact h.2
      have hdn : row.first_reading_date.isNone = true := by
        have h := h2
        rw [hg2, Bool.and_eq_true] at h
        exact h.2
      have hcomb : (st.rows.map (fun b =>
            if b.id = row.id then { b with ministry_id := c.ministry_id } else b)).map
            (fun b =>
              if b.id = row.id then
                { b with first_reading_date := c.first_reading_date,
                         first_reading_sitting_id := c.first_reading_sitting_id }
              else b)
          = st.rows.map (fun b =>
              if b.id = row.id then
                { b with ministry_id := c.ministry_id,
                         first_reading_date := c.first_reading_date,
                         first_reading_sitting_id := c.first_reading_sitting_id }
              else b) := by
        rw [List.map_map]
        refine List.map_congr_left ?_
        intro b _
        by_cases h : b.id = row.id <;> simp [h]
      rw [hcomb]
      have hmono : billMono row
          { row with ministry_id := c.ministry_id,
                     first_reading_date := c.first_reading_date,
                     first_reading_sitting_id := c.first_reading_sitting_id } := by
        refine ⟨rfl, rfl, fun hs => ?_, fun hs => ?_⟩
        · rw [Option.isNone_iff_eq_none.mp hmn] at hs
          simp at hs
        · rw [Option.isNone_iff_eq_none.mp hdn] at hs
          simp at hs
      obtain ⟨hids, hmem⟩ := update_rows_mono st.rows row hrow hnd
        (fun b => { b with ministry_id := c.ministry_id,
                           first_reading_date := c.first_reading_date,
                           first_reading_sitting_id := c.first_reading_sitting_id })
        hmono
      refine ⟨⟨by rw [hids]; exact hnd, ?_⟩, hmem⟩
      intro b hb
      obtain ⟨a, ha, rfl⟩ := List.mem_map.mp hb
      by_cases h : a.id = row.id
      · simp only [if_pos h]
        exact hfresh a ha
      · simp only [if_neg h]
        exact hfresh a ha

end DbAsync

/-- C2, counterexample to the claim as stated: a first `find_or_create_bill`
call creates the bill with the first-reading sitting reference 7 and no
first-reading date; a second call on the same title supplying a date and the
different sitting reference 9 overwrites the already-set sitting field. -/
theorem c2_counterexample :
    ((DbAsync.find_or_create_bill
        (DbAsync.find_or_create_bill { nextId := 1, rows := [] } "Test Bill"
          none none (some 7)).2
        "Test Bill" none (some "02-01-2024") (some 9)).2.rows.map
      (fun b => b.first_reading_sitting_id)) = [some 9] ∧
    ((DbAsync.find_or_create_bill { nextId := 1, rows := [] } "Test Bill"
        none none (some 7)).2.rows.map
      (fun b => b.first_reading_sitting_id)) = [some 7] := by
  decide

/-- C2, amended.  Across any sequence of `find_or_create_bill` calls on a
well-formed table, every pre-existing row keeps its id and title, a set
ministry is never overwritten, and once the first-reading *date* is set,
both first-reading fields are never overwritten.  (The first-reading sitting
reference alone is not monotone: a call that finds the date unset rewrites
the sitting reference together with the date, whatever it held — the
counterexample above.  In pipeline-reachable states the date and sitting are
always set together, so there no set field is ever overwritten.) -/
theorem c2_backfill_monotone :
    ∀ (st : DbAsync.BillsTable) (calls : List DbAsync.BillCall),
    st.WF →
    (DbAsync.runBillCalls st calls).WF ∧
    ∀ b ∈ st.rows, ∃ b2 ∈ (DbAsync.runBillCalls st calls).rows,
      DbAsync.billMono b b2 := by
  intro st calls
  induction calls generalizing st with
  | nil =>
    intro hwf
    exact ⟨hwf, fun b hb => ⟨b, hb, DbAsync.billMono_refl b⟩⟩
  | cons c cs ih =>
    intro hwf
    obtain ⟨hwf1, hmono1⟩ := DbAsync.billStep_mono st c hwf
    obtain ⟨hwf2, hmono2⟩ := ih (DbAsync.billStep st c) hwf1
    refine ⟨hwf2, fun b hb => ?_⟩
    obtain ⟨b1, hb1, hm1⟩ := hmono1 b hb
    obtain ⟨b2, hb2, hm2⟩ := hmono2 b1 hb1
    exact ⟨b2, hb2, DbAsync.billMono_trans hm1 hm2⟩

/-- C2, witness: a concrete fully-set row survives a further call with
different values unchanged. -/
theorem c2_backfill_monotone_witness :
    ∃ b2 ∈ (DbAsync.runBillCalls
        { nextId := 2,
          rows := [{ id := 1, title := "T", ministry_id := some 5,
                     first_reading_date := some "01-01-2024",
                     first_reading_sitting_id := some 1 }] }
        [{ title := "T", ministry_id := some 6,
           first_reading_date := some "02-02-2024",
           first_reading_sitting_id := some 2 }]).rows,
      DbAsync.billMono
        { id := 1, title := "T", ministry_id := some 5,
          first_reading_date := some "01-01-2024",
          first_reading_sitting_id := some 1 } b2 :=
  (c2_backfill_monotone _ _ (by constructor <;> decide)).2 _ (by decide)

/-- C10.  In a `find_or_create_bill` call that finds an existing bill, the
first-reading sitting reference is written if and only if the first-reading
date is written, both gated solely on the stored date being unset (and a
date being supplied): when the gate holds, both fields take the supplied
values; otherwise both are left untouched — in particular a call never
backfills the sitting reference alone, even when the stored sitting
reference is unset while the stored date is set. -/
theorem c10_sitting_gated_on_date :
    ∀ (st : DbAsync.BillsTable) (title : String) (mid : Option Nat)
      (frd : Option String) (frs : Option Nat) (r : DbAsync.Bill),
    st.rows.find? (fun b => b.title = title) = some r →
    ∃ r2, (DbAsync.find_or_create_bill st title mid frd frs).2.rows.find?
        (fun b => b.title = title) = some r2 ∧
      r2.id = r.id ∧
      ((frd.isSome = true ∧ r.first_reading_date = none) →
        r2.first_reading_date = frd ∧ r2.first_reading_sitting_id = frs) ∧
      (¬(frd.isSome = true ∧ r.first_reading_date = none) →
        r2.first_reading_date = r.first_reading_date ∧
        r2.first_reading_sitting_id = r.first_reading_sitting_id) := by
  intro st title mid frd frs r hfind
  rw [DbAsync.find_or_create_bill]
  rw [hfind]
  simp only
  set g1 := mid.isSome && r.ministry_id.isNone with hg1
  set g2 := frd.isSome && r.first_reading_date.isNone with hg2
  have hfindmap : ∀ (f : DbAsync.Bill → DbAsync.Bill),
      (∀ b, (f b).title = b.title) →
      ∀ (l : List DbAsync.Bill) (q : DbAsync.Bill), q.id = r.id →
      l.find? (fun b => b.title = title) = some q →
      (l.map (fun b => if b.id = r.id then f b else b)).find?
          (fun b => b.title = title) = some (f q) := by
    intro f hf l q hq hl
    rw [List.find?_map]
    have hp : ((fun b => decide (b.title = title)) ∘
        (fun b => if b.id = r.id then f b else b))
        = fun b => decide (b.title = title) := by
      funext b
      by_cases h : b.id = r.id <;> simp [h, hf]
    rw [hp, hl]
    simp [hq]
  cases h1 : g1 <;> cases h2 : g2
  · -- neither update
    simp only [Bool.false_eq_true, if_false]
    refine ⟨r, hfind, rfl, ?_, fun _ => ⟨rfl, rfl⟩⟩
    intro hgate
    rw [hg2, hgate.1, hgate.2] at h2
    simp at h2
  · -- first-reading update only
    simp only [Bool.false_eq_true, if_false, if_true]
    refine ⟨_, hfindmap
      (fun b => { b with first_reading_date := frd,
                         first_reading_sitting_id := frs }) (fun _ => rfl)
      st.rows r rfl hfind, rfl, fun _ => ⟨rfl, rfl⟩, ?_⟩
    intro hgate
    have h := h2
    rw [hg2, Bool.and_eq_true] at h
    exact absurd ⟨h.1, Option.isNone_iff_eq_none.mp h.2⟩ hgate
  · -- ministry update only
    simp only [Bool.false_eq_true, if_false, if_true]
    refine ⟨_, hfindmap (fun b => { b with ministry_id := mid }) (fun _ => rfl)
      st.rows r rfl hfind, rfl, ?_, fun _ => ⟨rfl, rfl⟩⟩
    intro hgate
    rw [hg2, hgate.1, hgate.2] at h2
    simp at h2
  · -- both updates
    simp only [if_true]
    have hcomb := hfindmap (fun b => { b with ministry_id := mid })
      (fun _ => rfl) st.rows r rfl hfind
    refine ⟨_, hfindmap
      (fun b => { b with first_reading_date := frd,
                         first_reading_sitting_id := frs }) (fun _ => rfl)
      _ ({ r with ministry_id := mid }) rfl hcomb, rfl, fun _ => ⟨rfl, rfl⟩, ?_⟩
    intro hgate
    have h := h2
    rw [hg2, Bool.and_eq_true] at h
    exact absurd ⟨h.1, Option.isNone_iff_eq_none.mp h.2⟩ hgate

/-- C10, witness: a stored bill whose date is set but whose sitting
reference is unset is left fully untouched by a call supplying both. -/
theorem c10_sitting_gated_on_date_witness :
    ∃ r2, (DbAsync.find_or_create_bill
        { nextId := 2,
          rows := [{ id := 1, title := "T", ministry_id := none,
                     first_reading_date := some "01-01-2024",
                     first_reading_sitting_id := none }] }
        "T" none (some "02-02-2024") (some 5)).2.rows.find?
        (fun b => b.title = "T") = some r2 ∧
      r2.id = 1 ∧
      (((some "02-02-2024" : Option String).isSome = true ∧
          (some "01-01-2024" : Option String) = none) →
        r2.first_reading_date = some "02-02-2024" ∧
        r2.first_reading_sitting_id = some 5) ∧
      (¬((some "02-02-2024" : Option String).isSome = true ∧
          (some "01-01-2024" : Option String) = none) →
        r2.first_reading_date = some "01-01-2024" ∧
        r2.first_reading_sitting_id = none) :=
  c10_sitting_gated_on_date _ "T" none (some "02-02-2024") (some 5)
    { id := 1, title := "T", ministry_id := none,
      first_reading_date := some "01-01-2024",
      first_reading_sitting_id := none } (by decide)

/-! ### Session upsert (C8) -/

/-- Updating, in place, the rows keyed like the found row leaves `find?`
pointing at the updated found row, whenever the update preserves the search
predicate. -/
theorem find?_update_key {α : Type} (l : List α) (p : α → Bool) (idf : α → Nat)
    (f : α → α) (hf : ∀ b, p (f b) = p b) (r : α) (hl : l.find? p = some r) :
    (l.map (fun b => if idf b = idf r then f b else b)).find? p = some (f r) := by
  rw [List.find?_map]
  have hp : (p ∘ fun b => if idf b = idf r then f b else b) = p := by
    funext b
    by_cases h : idf b = idf r <;> simp [h, hf]
  rw [hp, hl]
  simp

/-- C8, counterexample to the claim as stated: the async upsert of
`batch_process.py` / `process_hansard.py` conflicts on the date and updates
only `sitting_no`; parliament, session and volume numbers, format and url
keep their previously stored values instead of the latest fetch. -/
theorem c8_counterexample :
    ((DbAsync.upsert_session
        { nextId := 2,
          rows := [{ id := 1, date := "02-01-2024", sitting_no := some 1,
                     parliament := some 13, session_no := some 1,
                     volume_no := some 95, format := some "html",
                     url := some "u" }] }
        "02-01-2024" (some 2) (some 14) (some 2) (some 96) (some "pdf")
        (some "u2")).2.rows.map
      (fun r => (r.sitting_no, r.parliament, r.volume_no, r.format, r.url)))
      = [(some 2, some 13, some 95, some "html", some "u")] := by
  decide

/-- C8, amended.  On re-ingestion of an existing date, the sqlite
`create_or_update_session` overwrites every metadata field with the latest
fetch, but the async postgres upsert overwrites only the sitting number and
leaves parliament, session number, volume number, format and url at their
stored values. -/
theorem c8_upsert_metadata :
    (∀ (st : DbAsync.SessionsTable) (date : String)
      (sitting_no parliament session_no volume_no : Option Nat)
      (format url : Option String) (r : DbAsync.SessionRow),
      st.rows.find? (fun x => x.date = date) = some r →
      ∃ r2, (DbAsync.upsert_session st date sitting_no parliament session_no
          volume_no format url).2.rows.find? (fun x => x.date = date)
          = some r2 ∧
        r2.id = r.id ∧ r2.sitting_no = sitting_no ∧
        r2.parliament = r.parliament ∧ r2.session_no = r.session_no ∧
        r2.volume_no = r.volume_no ∧ r2.format = r.format ∧ r2.url = r.url) ∧
    (∀ (st : DbSqlite.SessionsTable) (date_str : String)
      (sitting_no parliament session_no volume_no : Option Nat)
      (format_type url : Option String) (d : String) (r : DbSqlite.SessionRow),
      DbSqlite.parse_date date_str = some d →
      st.rows.find? (fun x => x.date = some d) = some r →
      ∃ r2, (DbSqlite.create_or_update_session st date_str sitting_no parliament
          session_no volume_no format_type url).2.rows.find?
          (fun x => x.date = some d) = some r2 ∧
        r2.id = r.id ∧ r2.sitting_no = sitting_no ∧ r2.parliament = parliament ∧
        r2.session_no = session_no ∧ r2.volume_no = volume_no ∧
        r2.format = format_type ∧ r2.url = url) := by
  constructor
  · intro st date sitting_no parliament session_no volume_no format url r hfind
    rw [DbAsync.upsert_session, hfind]
    simp only
    exact ⟨_, find?_update_key st.rows (fun x => decide (x.date = date))
      (fun x => x.id)
      (fun x => { x with sitting_no := sitting_no }) (fun _ => rfl) r hfind,
      rfl, rfl, rfl, rfl, rfl, rfl, rfl⟩
  · intro st date_str sitting_no parliament session_no volume_no format_type url
      d r hpd hfind
    rw [DbSqlite.create_or_update_session]
    rw [hpd]
    simp only [hfind]
    exact ⟨_, find?_update_key st.rows (fun x => decide (x.date = some d))
      (fun x => x.id)
      (fun x => { x with sitting_no := sitting_no, parliament := parliament,
                         session_no := session_no, volume_no := volume_no,
                         format := format_type, url := url }) (fun _ => rfl)
      r hfind,
      rfl, rfl, rfl, rfl, rfl, rfl, rfl⟩

/-- C8, witness: both upsert variants applied to a concrete stored session
of the same date. -/
theorem c8_upsert_metadata_witness :
    (∃ r2, (DbAsync.upsert_session
        { nextId := 2,
          rows := [{ id := 1, date := "02-01-2024", sitting_no := some 1,
                     parliament := some 13, session_no := some 1,
                     volume_no := some 95, format := some "html",
                     url := some "u" }] }
        "02-01-2024" (some 2) (some 14) (some 2) (some 96) (some "pdf")
        (some "u2")).2.rows.find? (fun x => x.date = "02-01-2024") = some r2 ∧
      r2.id = 1 ∧ r2.sitting_no = some 2 ∧ r2.parliament = some 13 ∧
      r2.session_no = some 1 ∧ r2.volume_no = some 95 ∧
      r2.format = some "html" ∧ r2.url = some "u") ∧
    (∃ r2, (DbSqlite.create_or_update_session
        { nextId := 2,
          rows := [{ id := 1, date := some "2024-01-02", sitting_no := some 1,
                     parliament := some 13, session_no := some 1,
                     volume_no := some 95, format := some "html",
                     url := some "u" }] }
        "02-01-2024" (some 2) (some 14) (some 2) (some 96) (some "pdf")
        (some "u2")).2.rows.find? (fun x => x.date = some "2024-01-02")
        = some r2 ∧
      r2.id = 1 ∧ r2.sitting_no = some 2 ∧ r2.parliament = some 14 ∧
      r2.session_no = some 2 ∧ r2.volume_no = some 96 ∧
      r2.format = some "pdf" ∧ r2.url = some "u2") := by
  constructor
  · obtain ⟨r2, h1, h2, h3, h4, h5, h6, h7, h8⟩ :=
      c8_upsert_metadata.1
        { nextId := 2,
          rows := [{ id := 1, date := "02-01-2024", sitting_no := some 1,
                     parliament := some 13, session_no := some 1,
                     volume_no := some 95, format := some "html",
                     url := some "u" }] }
        "02-01-2024" (some 2) (some 14) (some 2) (some 96) (some "pdf")
        (some "u2")
        { id := 1, date := "02-01-2024", sitting_no := some 1,
          parliament := some 13, session_no := some 1, volume_no := some 95,
          format := some "html", url := some "u" } (by decide)
    exact ⟨r2, h1, h2, h3, h4, h5, h6, h7, h8⟩
  · obtain ⟨r2, h1, h2, h3, h4, h5, h6, h7, h8⟩ :=
      c8_upsert_metadata.2
        { nextId := 2,
          rows := [{ id := 1, date := some "2024-01-02", sitting_no := some 1,
                     parliament := some 13, session_no := some 1,
                     volume_no := some 95, format := some "html",
                     url := some "u" }] }
        "02-01-2024" (some 2) (some 14) (some 2) (some 96) (some "pdf")
        (some "u2") "2024-01-02"
        { id := 1, date := some "2024-01-02", sitting_no := some 1,
          parliament := some 13, session_no := some 1, volume_no := some 95,
          format := some "html", url := some "u" } (by decide) (by decide)
    exact ⟨r2, h1, h2, h3, h4, h5, h6, h7, h8⟩

/-! ### Section dedup (C5) -/

namespace CleanupDuplicates

theorem sameKey_refl (a : SectionRow) : sameKey a a = true := by
  simp [sameKey]

theorem sameKey_symm {a b : SectionRow} (h : sameKey a b = true) :
    sameKey b a = true := by
  simp only [sameKey, decide_eq_true_eq] at h ⊢
  exact ⟨h.1.symm, h.2.1.symm, h.2.2.symm⟩

theorem sameKey_trans {a b c : SectionRow} (h1 : sameKey a b = true)
    (h2 : sameKey b c = true) : sameKey a c = true := by
  simp only [sameKey, decide_eq_true_eq] at h1 h2 ⊢
  exact ⟨h1.1.trans h2.1, h1.2.1.trans h2.2.1, h1.2.2.trans h2.2.2⟩

theorem before_irrefl (kn : Bool) (a : SectionRow) :
    beforeInOrder kn a a = false := by
  cases kn <;> simp [beforeInOrder]

theorem before_total {kn : Bool} {a b : SectionRow} (hne : a.id ≠ b.id) :
    beforeInOrder kn a b = true ∨ beforeInOrder kn b a = true := by
  cases kn <;> simp only [beforeInOrder, decide_eq_true_eq] <;> omega

theorem before_asymm {kn : Bool} {a b : SectionRow}
    (h1 : beforeInOrder kn a b = true) (h2 : beforeInOrder kn b a = true) :
    False := by
  cases kn <;> simp only [beforeInOrder, decide_eq_true_eq] at h1 h2 <;> omega

theorem before_trans {kn : Bool} {a b c : SectionRow}
    (h1 : beforeInOrder kn a b = true) (h2 : beforeInOrder kn b c = true) :
    beforeInOrder kn a c = true := by
  cases kn <;> simp only [beforeInOrder, decide_eq_true_eq] at h1 h2 ⊢ <;> omega

/-- A nonempty list of rows with pairwise distinct ids has a first element
under the window order. -/
theorem exists_min (kn : Bool) :
    ∀ (P : List SectionRow),
    (∀ a ∈ P, ∀ b ∈ P, a.id = b.id → a = b) → P ≠ [] →
    ∃ m ∈ P, ∀ x ∈ P, x ≠ m → beforeInOrder kn m x = true := by
  intro P
  induction P with
  | nil => intro _ h; exact absurd rfl h
  | cons a P ih =>
    intro hinj _
    rcases hP : P with _ | ⟨b, Q⟩
    · refine ⟨a, List.mem_cons_self a [], ?_⟩
      intro x hx hxa
      rw [List.mem_singleton] at hx
      exact absurd hx hxa
    · rw [← hP]
      have hPne : P ≠ [] := by rw [hP]; exact List.cons_ne_nil _ _
      have hinjP : ∀ x ∈ P, ∀ y ∈ P, x.id = y.id → x = y := by
        intro x hx y hy
        exact hinj x (List.mem_cons_of_mem a hx) y (List.mem_cons_of_mem a hy)
      obtain ⟨m, hm, hmin⟩ := ih hinjP hPne
      by_cases hid : a.id = m.id
      · have ham : a = m :=
          hinj a (List.mem_cons_self a P) m (List.mem_cons_of_mem a hm) hid
        refine ⟨a, List.mem_cons_self a P, ?_⟩
        intro x hx hxa
        rcases List.mem_cons.mp hx with rfl | hx
        · exact absurd rfl hxa
        · rw [ham]
          exact hmin x hx (ham ▸ hxa)
      · rcases before_total hid with hab | hba
        · refine ⟨a, List.mem_cons_self a P, ?_⟩
          intro x hx hxa
          rcases List.mem_cons.mp hx with rfl | hx
          · exact absurd rfl hxa
          · by_cases hxm : x = m
            · rw [hxm]; exact hab
            · exact before_trans hab (hmin x hx hxm)
        · refine ⟨m, List.mem_cons_of_mem a hm, ?_⟩
          intro x hx hxm
          rcases List.mem_cons.mp hx with rfl | hx
          · exact hba
          · exact hmin x hx hxm

theorem rnum_eq_one_iff (S : List SectionRow) (kn : Bool) (r : SectionRow) :
    rnum S kn r = 1 ↔
    ∀ x ∈ S, sameKey x r = true → beforeInOrder kn x r = false := by
  rw [rnum]
  constructor
  · intro h x hx hk
    have hlen : (S.filter (fun x => sameKey x r && beforeInOrder kn x r)).length
        = 0 := by omega
    rw [List.length_eq_zero] at hlen
    by_contra hb
    rw [Bool.not_eq_false] at hb
    have : x ∈ S.filter (fun x => sameKey x r && beforeInOrder kn x r) := by
      rw [List.mem_filter]
      exact ⟨hx, by rw [hk, hb]; rfl⟩
    rw [hlen] at this
    exact absurd this (List.not_mem_nil x)
  · intro h
    have : S.filter (fun x => sameKey x r && beforeInOrder kn x r) = [] := by
      rw [List.filter_eq_nil_iff]
      intro x hx
      rw [Bool.and_eq_true]
      intro ⟨hk, hb⟩
      rw [h x hx hk] at hb
      exact absurd hb (by simp)
    rw [this]
    rfl

theorem rnum_gt_one (S : List SectionRow) (kn : Bool) (r x : SectionRow)
    (hx : x ∈ S) (hk : sameKey x r = true)
    (hb : beforeInOrder kn x r = true) : 1 < rnum S kn r := by
  rw [rnum]
  have : x ∈ S.filter (fun x => sameKey x r && beforeInOrder kn x r) := by
    rw [List.mem_filter]
    exact ⟨hx, by rw [hk, hb]; rfl⟩
  have := List.length_pos.mpr (List.ne_nil_of_mem this)
  omega

end CleanupDuplicates

/-- C5.  For every partition of the in-range section rows sharing the window
key, the cleanup keeps exactly the partition's first row under the order
`created_at` ascending (descending under keep-newest) with id ascending as
tie-break, and deletes the other `N - 1` rows. -/
theorem c5_dedup_determinism :
    ∀ (sittings : List (Nat × Nat)) (startDate endDate : Nat) (kn : Bool)
      (sections : List CleanupDuplicates.SectionRow),
    ((sections.map (fun r => r.id)).Nodup) →
    ∀ r0 ∈ sections.filter (fun r =>
      (((sittings.filter (fun s => startDate ≤ s.2 && s.2 ≤ endDate)).map
        (fun s => s.1)).contains r.sitting_id)),
    ∃ m ∈ (sections.filter (fun r =>
      (((sittings.filter (fun s => startDate ≤ s.2 && s.2 ≤ endDate)).map
        (fun s => s.1)).contains r.sitting_id))).filter
        (fun r => CleanupDuplicates.sameKey r r0),
      (∀ x ∈ (sections.filter (fun r =>
        (((sittings.filter (fun s => startDate ≤ s.2 && s.2 ≤ endDate)).map
          (fun s => s.1)).contains r.sitting_id))).filter
          (fun r => CleanupDuplicates.sameKey r r0),
        x ≠ m → CleanupDuplicates.beforeInOrder kn m x = true) ∧
      (∀ x ∈ (sections.filter (fun r =>
        (((sittings.filter (fun s => startDate ≤ s.2 && s.2 ≤ endDate)).map
          (fun s => s.1)).contains r.sitting_id))).filter
          (fun r => CleanupDuplicates.sameKey r r0),
        (x ∈ CleanupDuplicates.cleanup sittings startDate endDate kn sections
          ↔ x = m)) ∧
      (((sections.filter (fun r =>
        (((sittings.filter (fun s => startDate ≤ s.2 && s.2 ≤ endDate)).map
          (fun s => s.1)).contains r.sitting_id))).filter
          (fun r => CleanupDuplicates.sameKey r r0)).filter
        (fun x => !(decide (x ∈ CleanupDuplicates.cleanup sittings startDate
          endDate kn sections)))).length
        = ((sections.filter (fun r =>
          (((sittings.filter (fun s => startDate ≤ s.2 && s.2 ≤ endDate)).map
            (fun s => s.1)).contains r.sitting_id))).filter
            (fun r => CleanupDuplicates.sameKey r r0)).length - 1 := by
  intro sittings startDate endDate kn sections hnodup r0 hr0
  set ids := (sittings.filter (fun s => startDate ≤ s.2 && s.2 ≤ endDate)).map
    (fun s => s.1) with hids
  set inScope := sections.filter (fun r => ids.contains r.sitting_id)
    with hinScope
  set P := inScope.filter (fun r => CleanupDuplicates.sameKey r r0) with hP
  have hinj : ∀ a ∈ sections, ∀ b ∈ sections, a.id = b.id → a = b := by
    intro a ha b hb
    exact List.inj_on_of_nodup_map hnodup ha hb
  have hscope_sub : ∀ x ∈ inScope, x ∈ sections := by
    intro x hx
    exact List.mem_of_mem_filter hx
  have hP_scope : ∀ x ∈ P, x ∈ inScope := by
    intro x hx
    exact List.mem_of_mem_filter hx
  have hP_sec : ∀ x ∈ P, x ∈ sections := fun x hx => hscope_sub x (hP_scope x hx)
  have hP_key : ∀ x ∈ P, CleanupDuplicates.sameKey x r0 = true := by
    intro x hx
    exact (List.mem_filter.mp hx).2
  have hr0P : r0 ∈ P := by
    rw [hP, List.mem_filter]
    exact ⟨hr0, CleanupDuplicates.sameKey_refl r0⟩
  have hinjP : ∀ a ∈ P, ∀ b ∈ P, a.id = b.id → a = b := by
    intro a ha b hb
    exact hinj a (hP_sec a ha) b (hP_sec b hb)
  obtain ⟨m, hmP, hmin⟩ := CleanupDuplicates.exists_min kn P hinjP
    (List.ne_nil_of_mem hr0P)
  -- membership in P is scope plus key agreement with m
  have hmem_P : ∀ x, x ∈ inScope → CleanupDuplicates.sameKey x m = true → x ∈ P := by
    intro x hx hk
    rw [hP, List.mem_filter]
    exact ⟨hx, CleanupDuplicates.sameKey_trans hk (hP_key m hmP)⟩
  -- the two rank facts
  have hrank_m : CleanupDuplicates.rnum inScope kn m = 1 := by
    rw [CleanupDuplicates.rnum_eq_one_iff]
    intro x hx hk
    have hxP : x ∈ P := hmem_P x hx hk
    by_cases hxm : x = m
    · rw [hxm]
      exact CleanupDuplicates.before_irrefl kn m
    · have := hmin x hxP hxm
      rw [Bool.eq_false_iff]
      intro hb
      exact CleanupDuplicates.before_asymm this hb
  have hrank_x : ∀ x ∈ P, x ≠ m → 1 < CleanupDuplicates.rnum inScope kn x := by
    intro x hx hxm
    refine CleanupDuplicates.rnum_gt_one inScope kn x m (hP_scope m hmP) ?_
      (hmin x hx hxm)
    exact CleanupDuplicates.sameKey_trans (hP_key m hmP)
      (CleanupDuplicates.sameKey_symm (hP_key x hx))
  -- unfolding the cleanup
  have hids_ne : ids.isEmpty = false := by
    have := (List.mem_filter.mp hr0).2
    rw [List.contains_eq_any_beq] at this
    cases hid : ids with
    | nil =>
      rw [hid] at this
      simp at this
    | cons a l => rfl
  have hclean : CleanupDuplicates.cleanup sittings startDate endDate kn sections
      = sections.filter (fun r =>
          !(((inScope.filter (fun x =>
            1 < CleanupDuplicates.rnum inScope kn x)).map
            (fun x => x.id)).contains r.id)) := by
    rw [CleanupDuplicates.cleanup]
    rw [← hids, hids_ne]
    simp only [Bool.false_eq_true, if_false, ← hinScope]
  -- membership in the result, for rows of P
  have hcontains : ∀ (l : List Nat) (a : Nat), l.contains a = decide (a ∈ l) := by
    intro l a
    simp [List.contains]
  have hres : ∀ x ∈ P, (x ∈ CleanupDuplicates.cleanup sittings startDate
      endDate kn sections ↔ x = m) := by
    intro x hx
    rw [hclean, List.mem_filter]
    constructor
    · intro ⟨_, hkeep⟩
      by_contra hxm
      rw [hcontains] at hkeep
      have hmem : x.id ∈ (inScope.filter (fun y =>
          1 < CleanupDuplicates.rnum inScope kn y)).map (fun y => y.id) := by
        rw [List.mem_map]
        refine ⟨x, ?_, rfl⟩
        rw [List.mem_filter]
        exact ⟨hP_scope x hx, by simpa using hrank_x x hx hxm⟩
      simp [hmem] at hkeep
    · intro hxm
      subst hxm
      refine ⟨hP_sec x hx, ?_⟩
      rw [hcontains]
      have hnotmem : x.id ∉ (inScope.filter (fun y =>
          1 < CleanupDuplicates.rnum inScope kn y)).map (fun y => y.id) := by
        intro hcon
        rw [List.mem_map] at hcon
        obtain ⟨y, hy, hxy⟩ := hcon
        rw [List.mem_filter] at hy
        have hyx : y = x := hinj y (hscope_sub y hy.1) x (hP_sec x hx) hxy
        rw [hyx] at hy
        have h2 := hy.2
        simp only [decide_eq_true_eq] at h2
        rw [hrank_m] at h2
        exact absurd h2 (by simp)
      simp [hnotmem]
  -- the count of deleted rows
  have hPnodup : P.Nodup := by
    have hsec : sections.Nodup := (List.Nodup.of_map _ hnodup)
    exact (hsec.filter _).filter _
  have hfilter_eq : P.filter (fun x =>
      !(decide (x ∈ CleanupDuplicates.cleanup sittings startDate endDate kn
        sections))) = P.erase m := by
    rw [List.Nodup.erase_eq_filter hPnodup]
    refine List.filter_congr ?_
    intro x hx
    have hdec : decide (x ∈ CleanupDuplicates.cleanup sittings startDate endDate
        kn sections) = decide (x = m) := decide_eq_decide.mpr (hres x hx)
    rw [hdec]
    rfl
  refine ⟨m, hmP, hmin, hres, ?_⟩
  rw [hfilter_eq, List.length_erase_of_mem hmP]

/-- C5, witness: in a three-row partition with a creation-time tie between
ids 2 and 3, the survivor exists as characterized (it is row 2: earliest
creation, then smallest id). -/
theorem c5_dedup_determinism_witness :
    ∃ m ∈ (CleanupDuplicates.sampleSections.filter (fun r =>
      (((CleanupDuplicates.sampleSittings.filter
        (fun s => 5 ≤ s.2 && s.2 ≤ 15)).map
        (fun s => s.1)).contains r.sitting_id))).filter
        (fun r => CleanupDuplicates.sameKey r
          { id := 1, sitting_id := 1, section_title := "Q",
            section_type := "QN", created_at := 100 }),
      (∀ x ∈ (CleanupDuplicates.sampleSections.filter (fun r =>
        (((CleanupDuplicates.sampleSittings.filter
          (fun s => 5 ≤ s.2 && s.2 ≤ 15)).map
          (fun s => s.1)).contains r.sitting_id))).filter
          (fun r => CleanupDuplicates.sameKey r
            { id := 1, sitting_id := 1, section_title := "Q",
              section_type := "QN", created_at := 100 }),
        x ≠ m → CleanupDuplicates.beforeInOrder false m x = true) ∧
      (∀ x ∈ (CleanupDuplicates.sampleSections.filter (fun r =>
        (((CleanupDuplicates.sampleSittings.filter
          (fun s => 5 ≤ s.2 && s.2 ≤ 15)).map
          (fun s => s.1)).contains r.sitting_id))).filter
          (fun r => CleanupDuplicates.sameKey r
            { id := 1, sitting_id := 1, section_title := "Q",
              section_type := "QN", created_at := 100 }),
        (x ∈ CleanupDuplicates.cleanup CleanupDuplicates.sampleSittings 5 15
          false CleanupDuplicates.sampleSections ↔ x = m)) ∧
      (((CleanupDuplicates.sampleSections.filter (fun r =>
        (((CleanupDuplicates.sampleSittings.filter
          (fun s => 5 ≤ s.2 && s.2 ≤ 15)).map
          (fun s => s.1)).contains r.sitting_id))).filter
          (fun r => CleanupDuplicates.sameKey r
            { id := 1, sitting_id := 1, section_title := "Q",
              section_type := "QN", created_at := 100 })).filter
        (fun x => !(decide (x ∈ CleanupDuplicates.cleanup
          CleanupDuplicates.sampleSittings 5 15 false
          CleanupDuplicates.sampleSections)))).length
        = ((CleanupDuplicates.sampleSections.filter (fun r =>
          (((CleanupDuplicates.sampleSittings.filter
            (fun s => 5 ≤ s.2 && s.2 ≤ 15)).map
            (fun s => s.1)).contains r.sitting_id))).filter
            (fun r => CleanupDuplicates.sameKey r
              { id := 1, sitting_id := 1, section_title := "Q",
                section_type := "QN", created_at := 100 })).length - 1 :=
  c5_dedup_determinism CleanupDuplicates.sampleSittings 5 15 false
    CleanupDuplicates.sampleSections (by decide)
    { id := 1, sitting_id := 1, section_title := "Q", section_type := "QN",
      created_at := 100 } (by decide)

/-! ### Bill merge, intermediate-state integrity (C7) -/

namespace MergeBills

/-- The candidate fold of the details query returns a list member. -/
theorem foldl_pick_mem (sections : List SectionPtr) :
    ∀ (cs : List BillRow) (c : BillRow),
    (cs.foldl (fun best x => if betterCand sections x best then x else best) c)
      ∈ c :: cs := by
  intro cs
  induction cs with
  | nil => intro c; exact List.mem_singleton_self c
  | cons x xs ih =>
    intro c
    rw [List.foldl_cons]
    by_cases hb : betterCand sections x c = true
    · rw [if_pos hb]
      rcases List.mem_cons.mp (ih x) with h | h
      · rw [h]
        exact List.mem_cons_of_mem c (List.mem_cons_self x xs)
      · exact List.mem_cons_of_mem c (List.mem_cons_of_mem x h)
    · rw [if_neg hb]
      rcases List.mem_cons.mp (ih c) with h | h
      · rw [h]
        exact List.mem_cons_self c _
      · exact List.mem_cons_of_mem c (List.mem_cons_of_mem x h)

theorem pickMaster_mem {sections : List SectionPtr} {l : List BillRow}
    {m : BillRow} (h : pickMaster sections l = some m) : m ∈ l := by
  cases l with
  | nil => exact absurd h (by simp [pickMaster])
  | cons c cs =>
    rw [pickMaster] at h
    have := Option.some_injective _ h
    rw [← this]
    exact foldl_pick_mem sections cs c

theorem refIntact_iff (st : Store) :
    refIntact st = true ↔
    ∀ s ∈ st.sections, ∀ b, s.bill_id = some b → ∃ x ∈ st.bills, x.id = b := by
  rw [refIntact, List.all_eq_true]
  constructor
  · intro h s hs b hb
    have := h s hs
    rw [hb, List.any_eq_true] at this
    obtain ⟨x, hx, hxb⟩ := this
    exact ⟨x, hx, by simpa using hxb⟩
  · intro h s hs
    cases hb : s.bill_id with
    | none => simp
    | some b =>
      rw [List.any_eq_true]
      obtain ⟨x, hx, hxb⟩ := h s hs b hb
      exact ⟨x, hx, by simpa using hxb⟩

/-- The duplicate ids a plan sheds never include the plan master, and the
master id names an existing bill. -/
theorem groupPlan_facts (st : Store) (ids : List Nat) (masterId : Nat)
    (dups : List Nat) (hplan : groupPlan st ids = some (masterId, dups)) :
    (∃ x ∈ st.bills, x.id = masterId) ∧ ∀ d ∈ dups, d ≠ masterId := by
  rw [groupPlan] at hplan
  cases hpm : pickMaster st.sections
      (st.bills.filter (fun b => ids.contains b.id)) with
  | none => rw [hpm] at hplan; exact absurd hplan (by simp)
  | some master =>
    rw [hpm] at hplan
    simp only [Option.some_inj] at hplan
    have hmid : masterId = master.id := (congrArg Prod.fst hplan).symm
    have hdups : dups = ((st.bills.filter (fun b => ids.contains b.id)).filter
        (fun c => c.id ≠ master.id)).map (fun c => c.id) :=
      (congrArg Prod.snd hplan).symm
    constructor
    · exact ⟨master, List.mem_of_mem_filter (pickMaster_mem hpm), hmid.symm⟩
    · intro d hdm
      rw [hdups, List.mem_map] at hdm
      obtain ⟨c, hc, rfl⟩ := hdm
      rw [List.mem_filter] at hc
      rw [hmid]
      simpa using hc.2

/-- Processing one group keeps referential integrity at both intermediate
states and at the end. -/
theorem mergeGroup_refIntact (st : Store) (ids : List Nat)
    (h : refIntact st = true) :
    (∀ st2 ∈ mergeGroupTrace st ids, refIntact st2 = true) ∧
    refIntact (mergeGroup st ids) = true := by
  cases hplan : groupPlan st ids with
  | none =>
    rw [mergeGroupTrace, mergeGroup, hplan]
    exact ⟨by simp, h⟩
  | some pr =>
    obtain ⟨masterId, dups⟩ := pr
    cases dups with
    | nil =>
      rw [mergeGroupTrace, mergeGroup, hplan]
      exact ⟨by simp, h⟩
    | cons d ds =>
      obtain ⟨hmaster, hdups_ne⟩ := groupPlan_facts st ids masterId (d :: ds) hplan
      have hnotin : (d :: ds).contains masterId = false := by
        rw [← Bool.not_eq_true]
        intro hc
        rw [List.contains_eq_any_beq, List.any_eq_true] at hc
        obtain ⟨e, hem, hbeq⟩ := hc
        rw [beq_iff_eq] at hbeq
        exact hdups_ne e hem hbeq.symm
      -- integrity after the section update
      have h1 : refIntact (updateSections st (d :: ds) masterId) = true := by
        rw [refIntact_iff]
        intro s hs b hb
        rw [updateSections] at hs
        simp only at hs
        rw [List.mem_map] at hs
        obtain ⟨s0, hs0, rfl⟩ := hs
        cases hb0 : s0.bill_id with
        | none =>
          simp only [hb0] at hb
          exact absurd hb (by simp)
        | some b0 =>
          simp only [hb0] at hb
          by_cases hdc : (d :: ds).contains b0 = true
          · rw [if_pos hdc] at hb
            have hbm : b = masterId := (Option.some_inj.mp hb).symm
            rw [hbm]
            exact hmaster
          · rw [if_neg hdc] at hb
            exact (refIntact_iff st).mp h s0 hs0 b hb
      -- after the update no section points into the duplicates
      have h1b : ∀ s ∈ (updateSections st (d :: ds) masterId).sections, ∀ b,
          s.bill_id = some b → (d :: ds).contains b = false := by
        intro s hs b hb
        rw [updateSections] at hs
        simp only at hs
        rw [List.mem_map] at hs
        obtain ⟨s0, hs0, rfl⟩ := hs
        cases hb0 : s0.bill_id with
        | none =>
          simp only [hb0] at hb
          exact absurd hb (by simp)
        | some b0 =>
          simp only [hb0] at hb
          by_cases hdc : (d :: ds).contains b0 = true
          · rw [if_pos hdc] at hb
            have hbm : b = masterId := (Option.some_inj.mp hb).symm
            rw [hbm]
            exact hnotin
          · rw [if_neg hdc] at hb
            rw [hb0] at hb
            have hbb : b = b0 := (Option.some_inj.mp hb).symm
            rw [hbb]
            simpa using hdc
      -- integrity after the delete
      have h2 : refIntact (deleteBills (updateSections st (d :: ds) masterId)
          (d :: ds)) = true := by
        rw [refIntact_iff]
        intro s hs b hb
        rw [deleteBills] at hs
        simp only at hs
        obtain ⟨x, hx, hxb⟩ := (refIntact_iff _).mp h1 s hs b hb
        refine ⟨x, ?_, hxb⟩
        rw [deleteBills]
        simp only
        rw [List.mem_filter]
        refine ⟨hx, ?_⟩
        rw [hxb, h1b s hs b hb]
        rfl
      rw [mergeGroupTrace, mergeGroup, hplan]
      refine ⟨?_, h2⟩
      intro st2 hst2
      rcases List.mem_cons.mp hst2 with rfl | hst2
      · exact h1
      · rw [List.mem_singleton] at hst2
        rw [hst2]
        exact h2

end MergeBills

/-- C7.  Starting from a store with referential integrity, every
intermediate store state of a bill-merge run — after each group's section
reassignment and after each group's delete, matching the statement-level
commit points of the source — still has every section pointing at an
existing bill: within each group all reassignments happen before any
delete, so no section ever references a deleted bill. -/
theorem c7_merge_trace_integrity :
    ∀ st : MergeBills.Store, MergeBills.refIntact st = true →
    ∀ st2 ∈ MergeBills.mergeTrace st, MergeBills.refIntact st2 = true := by
  have hrun : ∀ (gs : List (List Nat)) (st : MergeBills.Store),
      MergeBills.refIntact st = true →
      ∀ st2 ∈ MergeBills.mergeRunTrace st gs,
        MergeBills.refIntact st2 = true := by
    intro gs
    induction gs with
    | nil => intro st _ st2 hst2; exact absurd hst2 (by simp [MergeBills.mergeRunTrace])
    | cons ids rest ih =>
      intro st h st2 hst2
      rw [MergeBills.mergeRunTrace] at hst2
      obtain ⟨hgrp, hmerged⟩ := MergeBills.mergeGroup_refIntact st ids h
      rcases List.mem_append.mp hst2 with hst2 | hst2
      · exact hgrp st2 hst2
      · exact ih (MergeBills.mergeGroup st ids) hmerged st2 hst2
  intro st h st2 hst2
  exact hrun (MergeBills.dupGroups st.bills) st h st2 hst2

/-- C7, witness: a concrete store with two same-titled bills and three
sections keeps integrity at every commit point of the run. -/
theorem c7_merge_trace_integrity_witness :
    (MergeBills.mergeTrace
      { bills := [{ id := 1, title := "A Bill", created_at := 5 },
                  { id := 2, title := "a bill ", created_at := 7 }],
        sections := [{ id := 1, bill_id := some 2 },
                     { id := 2, bill_id := some 1 },
                     { id := 3, bill_id := none }] }).all
      MergeBills.refIntact = true :=
  List.all_eq_true.mpr (fun st2 hst2 =>
    c7_merge_trace_integrity
      { bills := [{ id := 1, title := "A Bill", created_at := 5 },
                  { id := 2, title := "a bill ", created_at := 7 }],
        sections := [{ id := 1, bill_id := some 2 },
                     { id := 2, bill_id := some 1 },
                     { id := 3, bill_id := none }] } (by decide) st2 hst2)

/-! ### Ingestion idempotency (C1) -/

namespace BatchProcess

/-- A successful exact-name lookup is stable under appending members. -/
theorem memberFind_stable {l t : List MemberRow} {name : String} {m : MemberRow}
    (h : l.find? (fun x => x.name = name) = some m) :
    (l ++ t).find? (fun x => x.name = name) = some m := by
  rw [List.find?_append, h]
  rfl

theorem Extends_rfl (db : DB) : Extends db db :=
  ⟨⟨[], by simp⟩, fun _ _ h => h, fun _ h => h⟩

theorem Extends_trans {a b c : DB} (h1 : Extends a b) (h2 : Extends b c) :
    Extends a c := by
  obtain ⟨⟨t1, ht1⟩, hp1, hb1⟩ := h1
  obtain ⟨⟨t2, ht2⟩, hp2, hb2⟩ := h2
  exact ⟨⟨t1 ++ t2, by rw [ht2, ht1, List.append_assoc]⟩,
    fun sid mid h => hp2 sid mid (hp1 sid mid h),
    fun title h => hb2 title (hb1 title h)⟩

theorem attReady_of_extends {db db2 : DB} {sid : Nat} {mp : MP}
    (h : attReady db sid mp) (he : Extends db db2) : attReady db2 sid mp := by
  obtain ⟨m, hm, hpair⟩ := h
  obtain ⟨⟨t, ht⟩, hp, _⟩ := he
  exact ⟨m, by rw [ht]; exact memberFind_stable hm, hp sid m.id hpair⟩

theorem billReady_of_extends {db db2 : DB} {title : String}
    (h : billReady db title) (he : Extends db db2) : billReady db2 title :=
  he.2.2 title h

/-- Frame and extension facts of `find_or_create_member`. -/
theorem focm_spec (db : DB) (name : String) :
    (find_or_create_member db name).2.attendance = db.attendance ∧
    (find_or_create_member db name).2.billsT = db.billsT ∧
    (find_or_create_member db name).2.sessionsT = db.sessionsT ∧
    (find_or_create_member db name).2.sections = db.sections ∧
    (find_or_create_member db name).2.speakers = db.speakers ∧
    (∃ t, (find_or_create_member db name).2.members = db.members ++ t) ∧
    (∃ m, (find_or_create_member db name).2.members.find?
        (fun x => x.name = name) = some m ∧
      m.id = (find_or_create_member db name).1) := by
  rw [find_or_create_member]
  cases h : db.members.find? (fun m => m.name = name) with
  | some m =>
    refine ⟨rfl, rfl, rfl, rfl, rfl, ⟨[], by simp⟩, ⟨m, h, ?_⟩⟩
    rfl
  | none =>
    refine ⟨rfl, rfl, rfl, rfl, rfl, ⟨[_], rfl⟩, ?_⟩
    refine ⟨{ id := db.nextMemberId, name := name }, ?_, rfl⟩
    rw [List.find?_append, h]
    simp

/-- If the member already resolves, `find_or_create_member` is the
identity. -/
theorem focm_found {db : DB} {name : String} {m : MemberRow}
    (h : db.members.find? (fun x => x.name = name) = some m) :
    find_or_create_member db name = (m.id, db) := by
  rw [find_or_create_member, h]

/-- Frame and extension facts of the attendance upsert. -/
theorem asa_spec (db : DB) (sid mid : Nat) (present : Bool)
    (c d : Option String) :
    (add_session_attendance db sid mid present c d).members = db.members ∧
    (add_session_attendance db sid mid present c d).billsT = db.billsT ∧
    (add_session_attendance db sid mid present c d).sessionsT = db.sessionsT ∧
    (add_session_attendance db sid mid present c d).sections = db.sections ∧
    (add_session_attendance db sid mid present c d).speakers = db.speakers ∧
    (∀ sid2 mid2,
      db.attendance.any (fun r =>
        decide (r.session_id = sid2 ∧ r.member_id = mid2)) = true →
      (add_session_attendance db sid mid present c d).attendance.any (fun r =>
        decide (r.session_id = sid2 ∧ r.member_id = mid2)) = true) ∧
    (add_session_attendance db sid mid present c d).attendance.any (fun r =>
      decide (r.session_id = sid ∧ r.member_id = mid)) = true := by
  rw [add_session_attendance]
  by_cases h : db.attendance.any (fun r =>
      decide (r.session_id = sid ∧ r.member_id = mid)) = true
  · rw [if_pos h]
    refine ⟨rfl, rfl, rfl, rfl, rfl, ?_, ?_⟩
    · intro sid2 mid2 hp
      simp only
      rw [List.any_eq_true] at hp ⊢
      obtain ⟨r, hr, hrp⟩ := hp
      refine ⟨_, List.mem_map_of_mem (fun r =>
        if r.session_id = sid ∧ r.member_id = mid then
          { r with present := present, constituency := c, designation := d }
        else r) hr, ?_⟩
      by_cases hc : r.session_id = sid ∧ r.member_id = mid
      · simp only [if_pos hc]
        simpa using hrp
      · simp only [if_neg hc]
        exact hrp
    · simp only
      rw [List.any_eq_true] at h ⊢
      obtain ⟨r, hr, hrp⟩ := h
      refine ⟨_, List.mem_map_of_mem (fun r =>
        if r.session_id = sid ∧ r.member_id = mid then
          { r with present := present, constituency := c, designation := d }
        else r) hr, ?_⟩
      have hc : r.session_id = sid ∧ r.member_id = mid := by simpa using hrp
      simp only [if_pos hc]
      simpa using hc
  · rw [if_neg h]
    refine ⟨rfl, rfl, rfl, rfl, rfl, ?_, ?_⟩
    · intro sid2 mid2 hp
      simp only
      rw [List.any_append, hp]
      rfl
    · simp only
      rw [List.any_append]
      have hone : List.any [AttendanceRow.mk sid mid present c d] (fun r =>
          decide (r.session_id = sid ∧ r.member_id = mid)) = true := by simp
      rw [hone]
      simp

/-- If the attendance pair exists, the upsert keeps the attendance length. -/
theorem asa_length {db : DB} {sid mid : Nat} {present : Bool}
    {c d : Option String}
    (h : db.attendance.any (fun r =>
      decide (r.session_id = sid ∧ r.member_id = mid)) = true) :
    (add_session_attendance db sid mid present c d).attendance.length
      = db.attendance.length := by
  rw [add_session_attendance, if_pos h]
  simp

/-- Frame facts of the speaker link insert: only the speakers table can
change. -/
theorem ass_spec (db : DB) (sid mid : Nat) (c d : Option String) :
    (add_section_speaker db sid mid c d).members = db.members ∧
    (add_section_speaker db sid mid c d).attendance = db.attendance ∧
    (add_section_speaker db sid mid c d).billsT = db.billsT ∧
    (add_section_speaker db sid mid c d).sessionsT = db.sessionsT ∧
    (add_section_speaker db sid mid c d).sections = db.sections := by
  rw [add_section_speaker]
  by_cases h : db.speakers.any (fun r =>
      decide (r.section_id = sid ∧ r.member_id = mid)) = true
  · rw [if_pos h]
    exact ⟨rfl, rfl, rfl, rfl, rfl⟩
  · rw [if_neg h]
    exact ⟨rfl, rfl, rfl, rfl, rfl⟩

/-- `process_attendance` unfolded through the pair destructuring. -/
theorem process_attendance_eq (db : DB) (sid : Nat) (mp : MP) (present : Bool) :
    process_attendance db sid mp present
      = add_session_attendance (find_or_create_member db mp.name).2 sid
        (find_or_create_member db mp.name).1 present mp.constituency
        mp.appointment := rfl

/-- One run-1 attendance write extends the store, readies its own pair, and
leaves the other tables alone. -/
theorem pa_spec (db : DB) (sid : Nat) (mp : MP) (present : Bool) :
    Extends db (process_attendance db sid mp present) ∧
    attReady (process_attendance db sid mp present) sid mp ∧
    (process_attendance db sid mp present).billsT = db.billsT ∧
    (process_attendance db sid mp present).sessionsT = db.sessionsT ∧
    (process_attendance db sid mp present).sections = db.sections ∧
    (process_attendance db sid mp present).speakers = db.speakers := by
  rw [process_attendance_eq]
  obtain ⟨ha1, hb1, hs1, hc1, hk1, ⟨t, hm1⟩, ⟨m, hfind, hmid⟩⟩ :=
    focm_spec db mp.name
  obtain ⟨ha2, hb2, hs2, hc2, hk2, hpres, hnew⟩ :=
    asa_spec (find_or_create_member db mp.name).2 sid
      (find_or_create_member db mp.name).1 present mp.constituency mp.appointment
  refine ⟨⟨⟨t, by rw [ha2, hm1]⟩, ?_, ?_⟩, ⟨m, by rw [ha2]; exact hfind, ?_⟩,
    by rw [hb2, hb1], by rw [hs2, hs1], by rw [hc2, hc1], by rw [hk2, hk1]⟩
  · intro sid2 mid2 hp
    refine hpres sid2 mid2 ?_
    rw [ha1]
    exact hp
  · intro t2 hp
    rw [hb2, hb1]
    exact hp
  · rw [hmid]
    exact hnew

/-- One run-2 attendance write on a readied pair changes nothing but the
attendance values in place. -/
theorem pa_ready (db : DB) (sid : Nat) (mp : MP) (present : Bool)
    (h : attReady db sid mp) :
    (process_attendance db sid mp present).members = db.members ∧
    (process_attendance db sid mp present).attendance.length
      = db.attendance.length ∧
    (∀ sid2 mp2, attReady db sid2 mp2 →
      attReady (process_attendance db sid mp present) sid2 mp2) ∧
    (process_attendance db sid mp present).billsT = db.billsT ∧
    (process_attendance db sid mp present).sessionsT = db.sessionsT ∧
    (process_attendance db sid mp present).sections = db.sections ∧
    (process_attendance db sid mp present).speakers = db.speakers := by
  obtain ⟨m, hfind, hpair⟩ := h
  rw [process_attendance_eq, focm_found hfind]
  obtain ⟨ha2, hb2, hs2, hc2, hk2, hpres, _⟩ :=
    asa_spec db sid m.id present mp.constituency mp.appointment
  refine ⟨ha2, asa_length hpair, ?_, hb2, hs2, hc2, hk2⟩
  intro sid2 mp2 h2
  obtain ⟨m2, hfind2, hpair2⟩ := h2
  exact ⟨m2, by rw [ha2]; exact hfind2, hpres sid2 m2.id hpair2⟩

/-- Run-1 attendance phase: extends the store, readies every processed pair,
leaves bills, sessions, sections and speakers alone. -/
theorem foldAtt_spec :
    ∀ (mps : List MP) (db : DB) (sid : Nat) (present : Bool),
    Extends db (mps.foldl (fun d mp => process_attendance d sid mp present) db) ∧
    (∀ mp ∈ mps, attReady
      (mps.foldl (fun d mp => process_attendance d sid mp present) db) sid mp) ∧
    (mps.foldl (fun d mp => process_attendance d sid mp present) db).billsT
      = db.billsT ∧
    (mps.foldl (fun d mp => process_attendance d sid mp present) db).sessionsT
      = db.sessionsT ∧
    (mps.foldl (fun d mp => process_attendance d sid mp present) db).sections
      = db.sections ∧
    (mps.foldl (fun d mp => process_attendance d sid mp present) db).speakers
      = db.speakers := by
  intro mps
  induction mps with
  | nil =>
    intro db sid present
    exact ⟨Extends_rfl db, by simp, rfl, rfl, rfl, rfl⟩
  | cons mp mps ih =>
    intro db sid present
    rw [List.foldl_cons]
    obtain ⟨he1, hr1, hb1, hs1, hc1, hk1⟩ := pa_spec db sid mp present
    obtain ⟨he2, hr2, hb2, hs2, hc2, hk2⟩ :=
      ih (process_attendance db sid mp present) sid present
    refine ⟨Extends_trans he1 he2, ?_, by rw [hb2, hb1], by rw [hs2, hs1],
      by rw [hc2, hc1], by rw [hk2, hk1]⟩
    intro mp2 hmp2
    rcases List.mem_cons.mp hmp2 with rfl | hmp2
    · exact attReady_of_extends hr1 he2
    · exact hr2 mp2 hmp2

/-- Run-2 attendance phase over readied pairs: the attendance table keeps
its length and everything else stays put. -/
theorem foldAtt_ready :
    ∀ (mps : List MP) (db : DB) (sid : Nat) (present : Bool),
    (∀ mp ∈ mps, attReady db sid mp) →
    (mps.foldl (fun d mp => process_attendance d sid mp present) db).members
      = db.members ∧
    (mps.foldl (fun d mp =>
      process_attendance d sid mp present) db).attendance.length
      = db.attendance.length ∧
    (∀ sid2 mp2, attReady db sid2 mp2 → attReady
      (mps.foldl (fun d mp => process_attendance d sid mp present) db) sid2 mp2) ∧
    (mps.foldl (fun d mp => process_attendance d sid mp present) db).billsT
      = db.billsT ∧
    (mps.foldl (fun d mp => process_attendance d sid mp present) db).sessionsT
      = db.sessionsT ∧
    (mps.foldl (fun d mp => process_attendance d sid mp present) db).sections
      = db.sections ∧
    (mps.foldl (fun d mp => process_attendance d sid mp present) db).speakers
      = db.speakers := by
  intro mps
  induction mps with
  | nil =>
    intro db sid present _
    exact ⟨rfl, rfl, fun _ _ h => h, rfl, rfl, rfl, rfl⟩
  | cons mp mps ih =>
    intro db sid present h
    rw [List.foldl_cons]
    have hhead := h mp (List.mem_cons_self mp mps)
    obtain ⟨hm1, ha1, hr1, hb1, hs1, hc1, hk1⟩ := pa_ready db sid mp present hhead
    have htail : ∀ mp2 ∈ mps, attReady (process_attendance db sid mp present)
        sid mp2 := by
      intro mp2 hmp2
      exact hr1 sid mp2 (h mp2 (List.mem_cons_of_mem mp hmp2))
    obtain ⟨hm2, ha2, hr2, hb2, hs2, hc2, hk2⟩ :=
      ih (process_attendance db sid mp present) sid present htail
    exact ⟨by rw [hm2, hm1], by rw [ha2, ha1], fun sid2 mp2 hready =>
      hr2 sid2 mp2 (hr1 sid2 mp2 hready), by rw [hb2, hb1], by rw [hs2, hs1],
      by rw [hc2, hc1], by rw [hk2, hk1]⟩

/-- A title-preserving row update preserves every title-existence fact. -/
theorem any_title_map (rows : List DbAsync.Bill) (f : DbAsync.Bill → DbAsync.Bill)
    (hf : ∀ b, (f b).title = b.title) (t2 : String) :
    (rows.map f).any (fun b => b.title = t2) = rows.any (fun b => b.title = t2) := by
  induction rows with
  | nil => rfl
  | cons b rows ih =>
    rw [List.map_cons, List.any_cons, List.any_cons, ih, hf]

/-- `find_or_create_bill` preserves title existence and establishes it for
its own title. -/
theorem focb_titles (st : DbAsync.BillsTable) (title : String)
    (mid : Option Nat) (frd : Option String) (frs : Option Nat) :
    (∀ t2, st.rows.any (fun b => b.title = t2) = true →
      (DbAsync.find_or_create_bill st title mid frd frs).2.rows.any
        (fun b => b.title = t2) = true) ∧
    (DbAsync.find_or_create_bill st title mid frd frs).2.rows.any
      (fun b => b.title = title) = true := by
  rw [DbAsync.find_or_create_bill]
  cases hfind : st.rows.find? (fun b => b.title = title) with
  | none =>
    constructor
    · intro t2 h
      simp only
      rw [List.any_append, h]
      rfl
    · simp only
      rw [List.any_append]
      have hone : List.any [DbAsync.Bill.mk st.nextId title mid frd frs]
          (fun b => b.title = title) = true := by simp
      rw [hone]
      simp
  | some row =>
    by_cases g1 : (mid.isSome && row.ministry_id.isNone) = true <;>
      by_cases g2 : (frd.isSome && row.first_reading_date.isNone) = true <;>
      simp only [g1, g2, if_true, Bool.false_eq_true, if_false] <;>
      constructor <;>
      try intro t2 h
    · rw [any_title_map _ _ (fun b => by by_cases hb : b.id = row.id <;>
        simp [hb]) t2,
        any_title_map _ _ (fun b => by by_cases hb : b.id = row.id <;>
        simp [hb]) t2]
      exact h
    · rw [any_title_map _ _ (fun b => by by_cases hb : b.id = row.id <;>
        simp [hb]) title,
        any_title_map _ _ (fun b => by by_cases hb : b.id = row.id <;>
        simp [hb]) title]
      rw [List.any_eq_true]
      exact ⟨row, List.mem_of_find?_eq_some hfind,
        by simpa using List.find?_some hfind⟩
    · rw [any_title_map _ _ (fun b => by by_cases hb : b.id = row.id <;>
        simp [hb]) t2]
      exact h
    · rw [any_title_map _ _ (fun b => by by_cases hb : b.id = row.id <;>
        simp [hb]) title]
      rw [List.any_eq_true]
      exact ⟨row, List.mem_of_find?_eq_some hfind,
        by simpa using List.find?_some hfind⟩
    · rw [any_title_map _ _ (fun b => by by_cases hb : b.id = row.id <;>
        simp [hb]) t2]
      exact h
    · rw [any_title_map _ _ (fun b => by by_cases hb : b.id = row.id <;>
        simp [hb]) title]
      rw [List.any_eq_true]
      exact ⟨row, List.mem_of_find?_eq_some hfind,
        by simpa using List.find?_some hfind⟩
    · exact h
    · rw [List.any_eq_true]
      exact ⟨row, List.mem_of_find?_eq_some hfind,
        by simpa using List.find?_some hfind⟩

/-- When the title already exists, `find_or_create_bill` keeps the row
count. -/
theorem focb_found_length (st : DbAsync.BillsTable) (title : String)
    (mid : Option Nat) (frd : Option String) (frs : Option Nat)
    (h : st.rows.any (fun b => b.title = title) = true) :
    (DbAsync.find_or_create_bill st title mid frd frs).2.rows.length
      = st.rows.length := by
  rw [DbAsync.find_or_create_bill]
  cases hfind : st.rows.find? (fun b => b.title = title) with
  | none =>
    rw [List.find?_eq_none] at hfind
    rw [List.any_eq_true] at h
    obtain ⟨b, hb, hbt⟩ := h
    exact absurd hbt (hfind b hb)
  | some row =>
    by_cases g1 : (mid.isSome && row.ministry_id.isNone) = true <;>
      by_cases g2 : (frd.isSome && row.first_reading_date.isNone) = true <;>
      simp only [g1, g2, if_true, Bool.false_eq_true, if_false] <;>
      simp [List.length_map]

/-- `process_speaker` unfolded through the pair destructuring. -/
theorem process_speaker_eq (db : DB) (sid : Nat) (sp : MP) :
    process_speaker db sid sp
      = add_section_speaker (find_or_create_member db sp.name).2 sid
        (find_or_create_member db sp.name).1 sp.constituency sp.appointment := rfl

/-- One speaker write extends the store and leaves attendance, bills,
sessions and sections alone. -/
theorem ps_spec (db : DB) (sid : Nat) (sp : MP) :
    Extends db (process_speaker db sid sp) ∧
    (process_speaker db sid sp).attendance = db.attendance ∧
    (process_speaker db sid sp).billsT = db.billsT ∧
    (process_speaker db sid sp).sessionsT = db.sessionsT ∧
    (process_speaker db sid sp).sections = db.sections := by
  rw [process_speaker_eq]
  obtain ⟨ha1, hb1, hs1, hc1, hk1, ⟨t, hm1⟩, _⟩ := focm_spec db sp.name
  obtain ⟨hm2, ha2, hb2, hs2, hc2⟩ :=
    ass_spec (find_or_create_member db sp.name).2 sid
      (find_or_create_member db sp.name).1 sp.constituency sp.appointment
  refine ⟨⟨⟨t, by rw [hm2, hm1]⟩, ?_, ?_⟩, by rw [ha2, ha1], by rw [hb2, hb1],
    by rw [hs2, hs1], by rw [hc2, hc1]⟩
  · intro sid2 mid2 hp
    rw [ha2, ha1]
    exact hp
  · intro t2 hp
    rw [hb2, hb1]
    exact hp

/-- The speaker fold extends the store and leaves attendance, bills,
sessions and sections alone. -/
theorem fold_ps_spec :
    ∀ (sps : List MP) (db : DB) (sid : Nat),
    Extends db (sps.foldl (fun d sp => process_speaker d sid sp) db) ∧
    (sps.foldl (fun d sp => process_speaker d sid sp) db).attendance
      = db.attendance ∧
    (sps.foldl (fun d sp => process_speaker d sid sp) db).billsT = db.billsT ∧
    (sps.foldl (fun d sp => process_speaker d sid sp) db).sessionsT
      = db.sessionsT ∧
    (sps.foldl (fun d sp => process_speaker d sid sp) db).sections
      = db.sections := by
  intro sps
  induction sps with
  | nil => intro db sid; exact ⟨Extends_rfl db, rfl, rfl, rfl, rfl⟩
  | cons sp sps ih =>
    intro db sid
    rw [List.foldl_cons]
    obtain ⟨he1, ha1, hb1, hs1, hc1⟩ := ps_spec db sid sp
    obtain ⟨he2, ha2, hb2, hs2, hc2⟩ := ih (process_speaker db sid sp) sid
    exact ⟨Extends_trans he1 he2, by rw [ha2, ha1], by rw [hb2, hb1],
      by rw [hs2, hs1], by rw [hc2, hc1]⟩

/-- Appending one element adds one to the length. -/
theorem length_append_one {α : Type} (l : List α) (r : α) :
    (l ++ [r]).length = l.length + 1 := by
  rw [List.length_append]
  rfl

/-- One run-1 section write: the store extends, attendance and sessions stay
put, exactly one section row is added, and for a bill-typed section the bill
title afterwards resolves. -/
theorem psec_spec (db : DB) (sid : Nat) (sec : SectionIn) (date : String) :
    Extends db (process_section db sid sec date).2 ∧
    (process_section db sid sec date).2.attendance = db.attendance ∧
    (process_section db sid sec date).2.sessionsT = db.sessionsT ∧
    (process_section db sid sec date).2.sections.length
      = db.sections.length + 1 ∧
    (BILL_TYPES.contains sec.section_type = true →
      billReady (process_section db sid sec date).2 sec.title) := by
  rw [process_section]
  by_cases hct : BILL_TYPES.contains sec.section_type = true
  · rw [if_pos hct]
    refine ⟨?_, ?_, ?_, ?_, ?_⟩
    · refine Extends_trans ?_ (fold_ps_spec sec.speakers _ _).1
      refine ⟨⟨[], by simp⟩, ?_, ?_⟩
      · intro sid2 mid2 hp
        exact hp
      · intro t2 hp
        exact (focb_titles db.billsT sec.title
          (find_ministry_by_acronym db (detect_ministry sec))
          (if sec.section_type = "BI" then some date else none)
          (if sec.section_type = "BI" then some sid else none)).1 t2 hp
    · exact ((fold_ps_spec sec.speakers _ _).2.1).trans rfl
    · exact ((fold_ps_spec sec.speakers _ _).2.2.2.1).trans rfl
    · exact (congrArg List.length
        ((fold_ps_spec sec.speakers _ _).2.2.2.2)).trans
        (length_append_one db.sections _)
    · intro _
      rw [billReady, (fold_ps_spec sec.speakers _ _).2.2.1]
      exact (focb_titles db.billsT sec.title
        (find_ministry_by_acronym db (detect_ministry sec))
        (if sec.section_type = "BI" then some date else none)
        (if sec.section_type = "BI" then some sid else none)).2
  · rw [if_neg hct]
    refine ⟨?_, ?_, ?_, ?_, ?_⟩
    · refine Extends_trans ?_ (fold_ps_spec sec.speakers _ _).1
      exact ⟨⟨[], by simp⟩, fun _ _ hp => hp, fun _ hp => hp⟩
    · exact ((fold_ps_spec sec.speakers _ _).2.1).trans rfl
    · exact ((fold_ps_spec sec.speakers _ _).2.2.2.1).trans rfl
    · exact (congrArg List.length
        ((fold_ps_spec sec.speakers _ _).2.2.2.2)).trans
        (length_append_one db.sections _)
    · intro hcon
      exact absurd hcon hct

/-- One run-2 section write on a readied bill title: the bills table keeps
its row count (and a fresh section row is still appended). -/
theorem psec_ready (db : DB) (sid : Nat) (sec : SectionIn) (date : String)
    (h : BILL_TYPES.contains sec.section_type = true → billReady db sec.title) :
    (process_section db sid sec date).2.billsT.rows.length
      = db.billsT.rows.length := by
  rw [process_section]
  by_cases hct : BILL_TYPES.contains sec.section_type = true
  · rw [if_pos hct]
    refine (congrArg (fun t => t.rows.length)
      ((fold_ps_spec sec.speakers _ _).2.2.1)).trans ?_
    exact focb_found_length db.billsT sec.title
      (find_ministry_by_acronym db (detect_ministry sec))
      (if sec.section_type = "BI" then some date else none)
      (if sec.section_type = "BI" then some sid else none) (h hct)
  · rw [if_neg hct]
    exact congrArg (fun t => t.rows.length) (fold_ps_spec sec.speakers _ _).2.2.1

/-- Run-1 section phase: the store extends, attendance and sessions stay
put, and every bill-typed section's title afterwards resolves. -/
theorem fold_psec_spec :
    ∀ (secs : List SectionIn) (db : DB) (sid : Nat) (date : String),
    Extends db (secs.foldl (fun d sec => (process_section d sid sec date).2) db) ∧
    (secs.foldl (fun d sec =>
      (process_section d sid sec date).2) db).attendance = db.attendance ∧
    (secs.foldl (fun d sec =>
      (process_section d sid sec date).2) db).sessionsT = db.sessionsT ∧
    (∀ sec ∈ secs, BILL_TYPES.contains sec.section_type = true →
      billReady (secs.foldl (fun d sec =>
        (process_section d sid sec date).2) db) sec.title) := by
  intro secs
  induction secs with
  | nil =>
    intro db sid date
    exact ⟨Extends_rfl db, rfl, rfl, by simp⟩
  | cons sec secs ih =>
    intro db sid date
    rw [List.foldl_cons]
    obtain ⟨he1, ha1, hs1, _, hbr1⟩ := psec_spec db sid sec date
    obtain ⟨he2, ha2, hs2, hbr2⟩ := ih (process_section db sid sec date).2 sid date
    refine ⟨Extends_trans he1 he2, by rw [ha2, ha1], by rw [hs2, hs1], ?_⟩
    intro sec2 hsec2 hct2
    rcases List.mem_cons.mp hsec2 with rfl | hsec2
    · exact billReady_of_extends (hbr1 hct2) he2
    · exact hbr2 sec2 hsec2 hct2

/-- Run-2 section phase over readied bill titles: the bills table keeps its
row count, attendance stays put, and exactly one section row is added per
input section. -/
theorem fold_psec_ready :
    ∀ (secs : List SectionIn) (db : DB) (sid : Nat) (date : String),
    (∀ sec ∈ secs, BILL_TYPES.contains sec.section_type = true →
      billReady db sec.title) →
    (secs.foldl (fun d sec =>
      (process_section d sid sec date).2) db).billsT.rows.length
      = db.billsT.rows.length ∧
    (secs.foldl (fun d sec =>
      (process_section d sid sec date).2) db).attendance = db.attendance ∧
    (secs.foldl (fun d sec =>
      (process_section d sid sec date).2) db).sections.length
      = db.sections.length + secs.length := by
  intro secs
  induction secs with
  | nil =>
    intro db sid date _
    exact ⟨rfl, rfl, rfl⟩
  | cons sec secs ih =>
    intro db sid date h
    rw [List.foldl_cons]
    obtain ⟨he1, ha1, _, hl1, _⟩ := psec_spec db sid sec date
    have hbl1 := psec_ready db sid sec date (h sec (List.mem_cons_self sec secs))
    have htail : ∀ sec2 ∈ secs, BILL_TYPES.contains sec2.section_type = true →
        billReady (process_section db sid sec date).2 sec2.title := by
      intro sec2 hsec2 hct2
      exact billReady_of_extends (h sec2 (List.mem_cons_of_mem sec hsec2) hct2) he1
    obtain ⟨hb2, ha2, hl2⟩ := ih (process_section db sid sec date).2 sid date htail
    refine ⟨by rw [hb2, hbl1], by rw [ha2, ha1], ?_⟩
    rw [hl2, hl1]
    rw [List.length_cons]
    omega

/-- The session upsert leaves a row of the requested date carrying the
returned id. -/
theorem upsert_post (st : DbAsync.SessionsTable) (date : String)
    (sn p s v : Option Nat) (f u : Option String) :
    ∃ r, (DbAsync.upsert_session st date sn p s v f u).2.rows.find?
        (fun x => x.date = date) = some r ∧
      r.id = (DbAsync.upsert_session st date sn p s v f u).1 := by
  rw [DbAsync.upsert_session]
  cases hf : st.rows.find? (fun x => x.date = date) with
  | some row =>
    exact ⟨_, find?_update_key st.rows (fun x => decide (x.date = date))
      (fun x => x.id) (fun x => { x with sitting_no := sn }) (fun _ => rfl)
      row hf, rfl⟩
  | none =>
    refine ⟨DbAsync.SessionRow.mk st.nextId date sn p s v f u, ?_, rfl⟩
    rw [List.find?_append, hf]
    have hone : ([DbAsync.SessionRow.mk st.nextId date sn p s v f u].find?
        (fun x => x.date = date)) = some (DbAsync.SessionRow.mk st.nextId date
        sn p s v f u) := by simp
    rw [hone]
    rfl

/-- When a session row of the date exists, the upsert returns its id. -/
theorem upsert_found {st : DbAsync.SessionsTable} {date : String}
    {sn p s v : Option Nat} {f u : Option String} {r : DbAsync.SessionRow}
    (h : st.rows.find? (fun x => x.date = date) = some r) :
    (DbAsync.upsert_session st date sn p s v f u).1 = r.id := by
  rw [DbAsync.upsert_session, h]

/-- `ingest_session` on a sitting with sections, written as its stage
composition. -/
theorem ingest_shape (db : DB) (inp : SittingIn)
    (h : inp.sections.isEmpty = false) :
    (ingest_session db inp).2 =
      inp.sections.foldl (fun d sec => (process_section d
        (DbAsync.upsert_session db.sessionsT inp.date inp.sitting_no
          inp.parliament inp.session_no inp.volume_no inp.format
          (some ("https://sprs.parl.gov.sg/search/#/fullreport?sittingdate="
            ++ inp.date))).1 sec inp.date).2)
        (inp.absent_members.foldl (fun d mp => process_attendance d
          (DbAsync.upsert_session db.sessionsT inp.date inp.sitting_no
            inp.parliament inp.session_no inp.volume_no inp.format
            (some ("https://sprs.parl.gov.sg/search/#/fullreport?sittingdate="
              ++ inp.date))).1 mp false)
          (inp.present_members.foldl (fun d mp => process_attendance d
            (DbAsync.upsert_session db.sessionsT inp.date inp.sitting_no
              inp.parliament inp.session_no inp.volume_no inp.format
              (some ("https://sprs.parl.gov.sg/search/#/fullreport?sittingdate="
                ++ inp.date))).1 mp true)
            { db with sessionsT := (DbAsync.upsert_session db.sessionsT
              inp.date inp.sitting_no inp.parliament inp.session_no
              inp.volume_no inp.format
              (some ("https://sprs.parl.gov.sg/search/#/fullreport?sittingdate="
                ++ inp.date))).2 })) := by
  rw [ingest_session, if_neg (by rw [h]; exact Bool.false_ne_true)]

end BatchProcess

/-- C1, counterexample to the literal claim: ingesting the same one-section
sitting twice leaves two `sections` rows where a single ingestion leaves
one.  The section `INSERT` of `process_section` carries no conflict clause,
so re-ingestion duplicates every section row. -/
theorem c1_counterexample :
    (BatchProcess.ingest_session BatchProcess.emptyDB
      BatchProcess.sampleSitting).2.sections.length = 1 ∧
    (BatchProcess.ingest_session
      (BatchProcess.ingest_session BatchProcess.emptyDB
        BatchProcess.sampleSitting).2
      BatchProcess.sampleSitting).2.sections.length = 2 := by
  refine ⟨?_, ?_⟩ <;> decide

/-- C1, amended.  Re-ingesting the same sitting leaves the attendance and
bill row counts unchanged, but inserts every section row again: the second
run adds exactly one section row per input section, because the session
upsert, the attendance upsert, the member and bill find-or-create are
idempotent while the section insert carries no conflict clause. -/
theorem c1_reingest_counts :
    ∀ (db : BatchProcess.DB) (inp : BatchProcess.SittingIn),
    (BatchProcess.ingest_session
      (BatchProcess.ingest_session db inp).2 inp).2.attendance.length
      = (BatchProcess.ingest_session db inp).2.attendance.length ∧
    (BatchProcess.ingest_session
      (BatchProcess.ingest_session db inp).2 inp).2.billsT.rows.length
      = (BatchProcess.ingest_session db inp).2.billsT.rows.length ∧
    (BatchProcess.ingest_session
      (BatchProcess.ingest_session db inp).2 inp).2.sections.length
      = (BatchProcess.ingest_session db inp).2.sections.length
        + inp.sections.length := by
  intro db inp
  by_cases hemp : inp.sections.isEmpty = true
  · have hid : BatchProcess.ingest_session db inp = (none, db) := by
      rw [BatchProcess.ingest_session, if_pos hemp]
    have hlen : inp.sections.length = 0 := by
      rw [List.isEmpty_iff] at hemp
      rw [hemp]
      rfl
    rw [hid]
    simp only
    rw [hid, hlen]
    exact ⟨rfl, rfl, rfl⟩
  · have hne : inp.sections.isEmpty = false := by
      rw [Bool.not_eq_true] at hemp
      exact hemp
    rw [BatchProcess.ingest_shape db inp hne]
    set U := DbAsync.upsert_session db.sessionsT inp.date inp.sitting_no
      inp.parliament inp.session_no inp.volume_no inp.format
      (some ("https://sprs.parl.gov.sg/search/#/fullreport?sittingdate="
        ++ inp.date)) with hU
    set dbu : BatchProcess.DB := { db with sessionsT := U.2 } with hdbu
    set dbA := inp.present_members.foldl
      (fun d mp => BatchProcess.process_attendance d U.1 mp true) dbu with hdbA
    set dbB := inp.absent_members.foldl
      (fun d mp => BatchProcess.process_attendance d U.1 mp false) dbA with hdbB
    set db1 := inp.sections.foldl
      (fun d sec => (BatchProcess.process_section d U.1 sec inp.date).2) dbB
      with hdb1
    -- run-1 facts
    obtain ⟨r, hrfind, hrid⟩ := BatchProcess.upsert_post db.sessionsT inp.date
      inp.sitting_no inp.parliament inp.session_no inp.volume_no inp.format
      (some ("https://sprs.parl.gov.sg/search/#/fullreport?sittingdate="
        ++ inp.date))
    obtain ⟨heA, hreadyA, hbA, hsA, hcA, hkA⟩ :=
      BatchProcess.foldAtt_spec inp.present_members dbu U.1 true
    obtain ⟨heB, hreadyB, hbB, hsB, hcB, hkB⟩ :=
      BatchProcess.foldAtt_spec inp.absent_members dbA U.1 false
    obtain ⟨heS, haS, hsS, hbrS⟩ :=
      BatchProcess.fold_psec_spec inp.sections dbB U.1 inp.date
    -- every attendance pair is ready at the end of run 1
    have hreadyAll : ∀ mp ∈ inp.present_members ++ inp.absent_members,
        BatchProcess.attReady db1 U.1 mp := by
      intro mp hmp
      rcases List.mem_append.mp hmp with hmp | hmp
      · exact BatchProcess.attReady_of_extends
          (BatchProcess.attReady_of_extends (hreadyA mp hmp) heB) heS
      · exact BatchProcess.attReady_of_extends (hreadyB mp hmp) heS
    -- every bill-typed section title is ready at the end of run 1
    have hbillAll : ∀ sec ∈ inp.sections,
        BatchProcess.BILL_TYPES.contains sec.section_type = true →
        BatchProcess.billReady db1 sec.title := hbrS
    -- the run-1 session row survives to db1 with the same id
    have hsess1 : db1.sessionsT.rows.find? (fun x => x.date = inp.date)
        = some r := by
      rw [hsS, hsB, hsA]
      exact hrfind
    -- run 2
    rw [BatchProcess.ingest_shape db1 inp hne]
    have hsid2 : (DbAsync.upsert_session db1.sessionsT inp.date inp.sitting_no
        inp.parliament inp.session_no inp.volume_no inp.format
        (some ("https://sprs.parl.gov.sg/search/#/fullreport?sittingdate="
          ++ inp.date))).1 = U.1 := by
      rw [BatchProcess.upsert_found hsess1, hrid]
    rw [hsid2]
    set dbu2 : BatchProcess.DB := { db1 with sessionsT :=
      (DbAsync.upsert_session db1.sessionsT inp.date inp.sitting_no
        inp.parliament inp.session_no inp.volume_no inp.format
        (some ("https://sprs.parl.gov.sg/search/#/fullreport?sittingdate="
          ++ inp.date))).2 } with hdbu2
    -- readiness transfers to dbu2, whose members, attendance and bills are
    -- those of db1
    have hreadyAll2 : ∀ mp ∈ inp.present_members ++ inp.absent_members,
        BatchProcess.attReady dbu2 U.1 mp := fun mp hmp => hreadyAll mp hmp
    have hbillAll2 : ∀ sec ∈ inp.sections,
        BatchProcess.BILL_TYPES.contains sec.section_type = true →
        BatchProcess.billReady dbu2 sec.title := fun sec hsec hct =>
      hbillAll sec hsec hct
    obtain ⟨hm2A, ha2A, hr2A, hb2A, hs2A, hc2A, hk2A⟩ :=
      BatchProcess.foldAtt_ready inp.present_members dbu2 U.1 true
        (fun mp hmp => hreadyAll2 mp (List.mem_append_left _ hmp))
    set dbA2 := inp.present_members.foldl
      (fun d mp => BatchProcess.process_attendance d U.1 mp true) dbu2 with hdbA2
    obtain ⟨hm2B, ha2B, hr2B, hb2B, hs2B, hc2B, hk2B⟩ :=
      BatchProcess.foldAtt_ready inp.absent_members dbA2 U.1 false
        (fun mp hmp => hr2A U.1 mp
          (hreadyAll2 mp (List.mem_append_right _ hmp)))
    set dbB2 := inp.absent_members.foldl
      (fun d mp => BatchProcess.process_attendance d U.1 mp false) dbA2 with hdbB2
    -- bill titles remain ready after the run-2 attendance phases
    have hbillAll3 : ∀ sec ∈ inp.sections,
        BatchProcess.BILL_TYPES.contains sec.section_type = true →
        BatchProcess.billReady dbB2 sec.title := by
      intro sec hsec hct
      rw [BatchProcess.billReady, hb2B, hb2A]
      exact hbillAll2 sec hsec hct
    obtain ⟨hbS2, haS2, hlS2⟩ :=
      BatchProcess.fold_psec_ready inp.sections dbB2 U.1 inp.date hbillAll3
    refine ⟨?_, ?_, ?_⟩
    · rw [haS2, ha2B, ha2A]
    · rw [hbS2, hb2B, hb2A]
    · rw [hlS2, hc2B, hc2A]

/-! ### Master selection and the merge run invariant (C6) -/

namespace MergeBills

theorem better_irrefl (sections : List SectionPtr) (a : BillRow) :
    betterCand sections a a = false := by
  rw [betterCand, decide_eq_false_iff_not]
  omega

theorem better_trans {sections : List SectionPtr} {a b c : BillRow}
    (h1 : betterCand sections a b = true) (h2 : betterCand sections b c = true) :
    betterCand sections a c = true := by
  rw [betterCand, decide_eq_true_eq] at h1 h2 ⊢
  omega

theorem better_neg_mix {sections : List SectionPtr} {a b c : BillRow}
    (h1 : betterCand sections a b = false) (h2 : betterCand sections a c = true) :
    betterCand sections b c = true := by
  rw [betterCand, decide_eq_false_iff_not] at h1
  rw [betterCand, decide_eq_true_eq] at h2 ⊢
  omega

/-- No list element strictly precedes the candidate the fold keeps. -/
theorem foldl_pick_best (sections : List SectionPtr) :
    ∀ (cs : List BillRow) (c : BillRow), ∀ x ∈ c :: cs,
    betterCand sections x
      (cs.foldl (fun best z => if betterCand sections z best then z else best) c)
      = false := by
  intro cs
  induction cs with
  | nil =>
    intro c x hx
    rw [List.mem_singleton] at hx
    rw [hx, List.foldl_nil]
    exact better_irrefl sections c
  | cons y ys ih =>
    intro c x hx
    rw [List.foldl_cons]
    by_cases hb : betterCand sections y c = true
    · rw [if_pos hb]
      rcases List.mem_cons.mp hx with hxc | hx2
      · rw [hxc, ← Bool.not_eq_true]
        intro hcr
        have h1 := ih y y (List.mem_cons_self y ys)
        rw [better_trans hb hcr] at h1
        exact Bool.noConfusion h1
      · exact ih y x hx2
    · rw [if_neg hb]
      have hbf : betterCand sections y c = false := by simpa using hb
      rcases List.mem_cons.mp hx with hxc | hx2
      · rw [hxc]
        exact ih c c (List.mem_cons_self c ys)
      · rcases List.mem_cons.mp hx2 with hxy | hx3
        · rw [hxy, ← Bool.not_eq_true]
          intro hcr
          have h1 := ih c c (List.mem_cons_self c ys)
          rw [better_neg_mix hbf hcr] at h1
          exact Bool.noConfusion h1
        · exact ih c x (List.mem_cons_of_mem c hx3)

/-- The picked master is preceded by no candidate. -/
theorem pickMaster_best {sections : List SectionPtr} {l : List BillRow}
    {m : BillRow} (h : pickMaster sections l = some m) :
    ∀ x ∈ l, betterCand sections x m = false := by
  cases l with
  | nil => exact absurd h (by simp [pickMaster])
  | cons c cs =>
    rw [pickMaster, Option.some_inj] at h
    intro x hx
    rw [← h]
    exact foldl_pick_best sections cs c x hx

/-- The candidate fold only consults the section counts of list members. -/
theorem foldl_pick_congr (s1 s2 : List SectionPtr) :
    ∀ (cs : List BillRow) (c : BillRow),
    (∀ x ∈ c :: cs, sectionCount s1 x.id = sectionCount s2 x.id) →
    cs.foldl (fun best z => if betterCand s1 z best then z else best) c =
    cs.foldl (fun best z => if betterCand s2 z best then z else best) c := by
  intro cs
  induction cs with
  | nil => intro c _; rfl
  | cons y ys ih =>
    intro c h
    rw [List.foldl_cons, List.foldl_cons]
    have hy := h y (List.mem_cons_of_mem c (List.mem_cons_self y ys))
    have hc := h c (List.mem_cons_self c (y :: ys))
    have hbc : betterCand s1 y c = betterCand s2 y c := by
      rw [betterCand, betterCand, hy, hc]
    rw [hbc]
    by_cases hb : betterCand s2 y c = true
    · rw [if_pos hb]
      refine ih y (fun x hx => h x ?_)
      rcases List.mem_cons.mp hx with rfl | hx2
      · exact List.mem_cons_of_mem c (List.mem_cons_self x ys)
      · exact List.mem_cons_of_mem c (List.mem_cons_of_mem y hx2)
    · rw [if_neg hb]
      refine ih c (fun x hx => h x ?_)
      rcases List.mem_cons.mp hx with rfl | hx2
      · exact List.mem_cons_self x (y :: ys)
      · exact List.mem_cons_of_mem c (List.mem_cons_of_mem y hx2)

theorem pickMaster_congr (s1 s2 : List SectionPtr) (l : List BillRow)
    (h : ∀ x ∈ l, sectionCount s1 x.id = sectionCount s2 x.id) :
    pickMaster s1 l = pickMaster s2 l := by
  cases l with
  | nil => rfl
  | cons c cs =>
    rw [pickMaster, pickMaster, foldl_pick_congr s1 s2 cs c h]

/-- A `findSome?` whose every hit carries the same value, with at least one
hit, returns that value. -/
theorem findSome_const {α β : Type} (f : α → Option β) (v : β) :
    ∀ (l : List α) (a : α), a ∈ l → f a ≠ none →
    (∀ x ∈ l, ∀ y, f x = some y → y = v) →
    l.findSome? f = some v := by
  intro l
  induction l with
  | nil => intro a ha; exact absurd ha (List.not_mem_nil a)
  | cons x xs ih =>
    intro a ha hane hval
    rw [List.findSome?_cons]
    cases hfx : f x with
    | some y =>
      rw [hval x (List.mem_cons_self x xs) y hfx]
    | none =>
      rcases List.mem_cons.mp ha with rfl | ha2
      · exact absurd hfx hane
      · exact ih a ha2 hane (fun z hz => hval z (List.mem_cons_of_mem x hz))

theorem contains_iff (l : List Nat) (n : Nat) : l.contains n = true ↔ n ∈ l := by
  simp

/-- Membership in an aggregated group, read back through the grouping
query. -/
theorem mem_groupIds {bills : List BillRow} {k : String} {n : Nat} :
    n ∈ groupIds bills k ↔ ∃ b ∈ bills, b.id = n ∧ normTitle b.title = k := by
  rw [groupIds, List.mem_map]
  constructor
  · rintro ⟨b, hb, rfl⟩
    rw [List.mem_filter] at hb
    exact ⟨b, hb.1, rfl, by simpa using hb.2⟩
  · rintro ⟨b, hb, hid, hk⟩
    exact ⟨b, List.mem_filter.mpr ⟨hb, by simpa using hk⟩, hid⟩

/-- With primary-key-unique bill ids, an id determines its normalized
title. -/
theorem key_eq_of_mem {bills : List BillRow}
    (hinj : ∀ b1 ∈ bills, ∀ b2 ∈ bills, b1.id = b2.id → b1 = b2)
    {k1 k2 : String} {n : Nat}
    (h1 : n ∈ groupIds bills k1) (h2 : n ∈ groupIds bills k2) : k1 = k2 := by
  obtain ⟨b1, hb1, hid1, hk1⟩ := mem_groupIds.mp h1
  obtain ⟨b2, hb2, hid2, hk2⟩ := mem_groupIds.mp h2
  rw [← hk1, ← hk2, hinj b1 hb1 b2 hb2 (hid1.trans hid2.symm)]

/-- Every duplicate group is the aggregation of some key, with more than one
member. -/
theorem dupGroups_ex {bills : List BillRow} {g : List Nat}
    (hg : g ∈ dupGroups bills) :
    ∃ k, g = groupIds bills k ∧ 1 < g.length := by
  rw [dupGroups, List.mem_map] at hg
  obtain ⟨k, hk, hkg⟩ := hg
  rw [List.mem_filter] at hk
  refine ⟨k, hkg.symm, ?_⟩
  rw [← hkg]
  simpa using hk.2

/-- Two duplicate groups sharing an id are the same group. -/
theorem dupGroups_eq_of_shared {bills : List BillRow} {g1 g2 : List Nat}
    {n : Nat} (hinj : ∀ b1 ∈ bills, ∀ b2 ∈ bills, b1.id = b2.id → b1 = b2)
    (h1 : g1 ∈ dupGroups bills) (h2 : g2 ∈ dupGroups bills)
    (hn1 : n ∈ g1) (hn2 : n ∈ g2) : g1 = g2 := by
  obtain ⟨k1, rfl, _⟩ := dupGroups_ex h1
  obtain ⟨k2, rfl, _⟩ := dupGroups_ex h2
  rw [key_eq_of_mem hinj hn1 hn2]

/-- The duplicate-group list has no repeated group. -/
theorem dupGroups_nodup {bills : List BillRow}
    (hinj : ∀ b1 ∈ bills, ∀ b2 ∈ bills, b1.id = b2.id → b1 = b2) :
    (dupGroups bills).Nodup := by
  rw [dupGroups]
  refine List.Nodup.map_on ?_ ((List.nodup_dedup _).filter _)
  intro k1 hk1 k2 hk2 heq
  rw [List.mem_filter] at hk1
  have hlen : 1 < (groupIds bills k1).length := by simpa using hk1.2
  obtain ⟨n, hn⟩ := List.exists_mem_of_length_pos (l := groupIds bills k1)
    (by omega)
  exact key_eq_of_mem hinj hn (heq ▸ hn)

/-- The full content of a resolved group plan: the master is a bill of the
group, the shed ids are exactly the group's other resolved ids. -/
theorem groupPlan_spec2 {st0 : Store} {g : List Nat} {m : Nat} {dl : List Nat}
    (hplan : groupPlan st0 g = some (m, dl)) :
    (∃ x ∈ st0.bills, x.id = m ∧ m ∈ g) ∧
    (∀ n ∈ dl, n ∈ g ∧ n ≠ m) ∧
    (∀ b ∈ st0.bills, b.id ∈ g → b.id = m ∨ b.id ∈ dl) := by
  rw [groupPlan] at hplan
  cases hpm : pickMaster st0.sections
      (st0.bills.filter (fun b => g.contains b.id)) with
  | none => rw [hpm] at hplan; exact absurd hplan (by simp)
  | some master =>
    rw [hpm] at hplan
    simp only [Option.some_inj] at hplan
    have hmid : m = master.id := (congrArg Prod.fst hplan).symm
    have hdl : dl = ((st0.bills.filter (fun b => g.contains b.id)).filter
        (fun c => c.id ≠ master.id)).map (fun c => c.id) :=
      (congrArg Prod.snd hplan).symm
    have hmm := pickMaster_mem hpm
    rw [List.mem_filter] at hmm
    refine ⟨⟨master, hmm.1, hmid.symm, ?_⟩, ?_, ?_⟩
    · rw [hmid]
      exact (contains_iff g master.id).mp hmm.2
    · intro n hn
      rw [hdl, List.mem_map] at hn
      obtain ⟨c, hc, rfl⟩ := hn
      rw [List.mem_filter] at hc
      have hc1 := hc.1
      rw [List.mem_filter] at hc1
      refine ⟨(contains_iff g c.id).mp hc1.2, ?_⟩
      rw [hmid]
      simpa using hc.2
    · intro b hb hbg
      by_cases hbm : b.id = m
      · exact Or.inl hbm
      · refine Or.inr ?_
        rw [hdl, List.mem_map]
        refine ⟨b, ?_, rfl⟩
        rw [List.mem_filter]
        refine ⟨List.mem_filter.mpr ⟨hb, (contains_iff g b.id).mpr hbg⟩, ?_⟩
        rw [hmid] at hbm
        simpa using hbm

/-- A shed duplicate id lies in its group, differs from the group's master,
and the master also lies in the group. -/
theorem dupIdsOf_mem_group {st0 : Store} {g : List Nat} {n : Nat}
    (h : n ∈ dupIdsOf st0 g) :
    n ∈ g ∧ n ≠ masterIdOf st0 g ∧ masterIdOf st0 g ∈ g := by
  rw [dupIdsOf] at h
  cases hplan : groupPlan st0 g with
  | none => rw [hplan] at h; exact absurd h (List.not_mem_nil n)
  | some pr =>
    obtain ⟨m, dl⟩ := pr
    rw [hplan] at h
    obtain ⟨⟨x, hx, hxid, hmg⟩, hdl, _⟩ := groupPlan_spec2 hplan
    have hmid : masterIdOf st0 g = m := by rw [masterIdOf, hplan]
    rw [hmid]
    exact ⟨(hdl n h).1, (hdl n h).2, hmg⟩

/-- Before any group runs, the invariant holds trivially. -/
theorem mergeInv_nil (st0 : Store) : MergeInv st0 [] st0 := by
  refine ⟨?_, ?_⟩
  · exact (List.filter_eq_self.mpr (fun a _ => by simp)).symm
  · have h : ∀ s ∈ st0.sections, remapAll st0 [] s = s := by
      intro s _
      rw [remapAll]
      cases hb : s.bill_id with
      | none => rfl
      | some b => rfl
    rw [List.map_congr_left h]
    simp

/-- The planned remap never changes a section's own id. -/
theorem remapAll_id (st0 : Store) (processed : List (List Nat)) (s : SectionPtr) :
    (remapAll st0 processed s).id = s.id := by
  rw [remapAll]
  cases hb : s.bill_id with
  | none => rfl
  | some b =>
    split <;> try rfl
    split <;> rfl

/-- One group step preserves the run invariant: the group's plan against the
current store coincides with the plan against the initial store, because
earlier groups are disjoint from it and never touch its section counts. -/
theorem mergeStep_inv (st0 : Store)
    (hinj : ∀ b1 ∈ st0.bills, ∀ b2 ∈ st0.bills, b1.id = b2.id → b1 = b2)
    (processed rest : List (List Nat)) (ids : List Nat)
    (harr : processed ++ ids :: rest = dupGroups st0.bills)
    (st : Store) (hinv : MergeInv st0 processed st) :
    MergeInv st0 (processed ++ [ids]) (mergeGroup st ids) := by
  have hids_mem : ids ∈ dupGroups st0.bills := by
    rw [← harr]
    exact List.mem_append_right _ (List.mem_cons_self _ _)
  have hmem : ∀ g ∈ processed, g ∈ dupGroups st0.bills := by
    intro g hg
    rw [← harr]
    exact List.mem_append_left _ hg
  have hnp : ids ∉ processed := by
    have hnd := dupGroups_nodup hinj
    rw [← harr, List.nodup_append] at hnd
    intro hc
    exact hnd.2.2 hc (List.mem_cons_self _ _)
  have K1 : ∀ n ∈ ids, ∀ g ∈ processed,
      (dupIdsOf st0 g).contains n = false := by
    intro n hn g hg
    rw [← Bool.not_eq_true]
    intro hc
    obtain ⟨hng, _, _⟩ := dupIdsOf_mem_group ((contains_iff _ n).mp hc)
    exact hnp ((dupGroups_eq_of_shared hinj (hmem g hg) hids_mem hng hn) ▸ hg)
  have K2 : ∀ (s : SectionPtr), ∀ n ∈ ids,
      ((remapAll st0 processed s).bill_id = some n ↔ s.bill_id = some n) := by
    intro s n hn
    cases hb : s.bill_id with
    | none =>
      have h1 : remapAll st0 processed s = s := by simp only [remapAll, hb]
      rw [h1, hb]
    | some b =>
      cases hfs : processed.findSome? (fun g =>
          if (dupIdsOf st0 g).contains b then some (masterIdOf st0 g)
          else none) with
      | none =>
        have h1 : remapAll st0 processed s = s := by
          simp only [remapAll, hb, hfs]
        rw [h1, hb]
      | some mid =>
        have h1 : remapAll st0 processed s = { s with bill_id := some mid } := by
          simp only [remapAll, hb, hfs]
        rw [h1]
        obtain ⟨g, hg, hfg⟩ := List.exists_of_findSome?_eq_some hfs
        by_cases hcg : (dupIdsOf st0 g).contains b = true
        · rw [if_pos hcg] at hfg
          have hmidg : masterIdOf st0 g = mid := Option.some_inj.mp hfg
          obtain ⟨hbg, _, hmg⟩ := dupIdsOf_mem_group ((contains_iff _ b).mp hcg)
          have hgne : g ≠ ids := fun he => hnp (he ▸ hg)
          show some mid = some n ↔ some b = some n
          constructor
          · intro h
            have hng : n ∈ g := by
              rw [← Option.some_inj.mp h, ← hmidg]
              exact hmg
            exact absurd (dupGroups_eq_of_shared hinj (hmem g hg) hids_mem
              hng hn) hgne
          · intro h
            have hng : n ∈ g := by
              rw [← Option.some_inj.mp h]
              exact hbg
            exact absurd (dupGroups_eq_of_shared hinj (hmem g hg) hids_mem
              hng hn) hgne
        · rw [if_neg hcg] at hfg
          exact absurd hfg (by simp)
  have C2 : ∀ n ∈ ids, sectionCount st.sections n =
      sectionCount st0.sections n := by
    intro n hn
    rw [hinv.2, sectionCount, sectionCount, List.filter_map, List.length_map]
    congr 1
    apply List.filter_congr
    intro s _
    simp only [Function.comp]
    exact decide_eq_decide.mpr (K2 s n hn)
  have C1 : st.bills.filter (fun b => ids.contains b.id) =
      st0.bills.filter (fun b => ids.contains b.id) := by
    rw [hinv.1, List.filter_filter]
    apply List.filter_congr
    intro b _
    cases hc : ids.contains b.id with
    | false => simp
    | true =>
      have hany : processed.any
          (fun g => (dupIdsOf st0 g).contains b.id) = false := by
        rw [List.any_eq_false]
        intro g hg
        rw [K1 b.id ((contains_iff _ _).mp hc) g hg]
        exact Bool.false_ne_true
      rw [hany]
      simp
  have hcand : ∀ x ∈ st0.bills.filter (fun b => ids.contains b.id),
      x.id ∈ ids := by
    intro x hx
    rw [List.mem_filter] at hx
    exact (contains_iff _ _).mp hx.2
  have C3 : groupPlan st ids = groupPlan st0 ids := by
    simp only [groupPlan]
    rw [C1, pickMaster_congr st.sections st0.sections
      (st0.bills.filter (fun b => ids.contains b.id))
      (fun x hx => C2 x.id (hcand x hx))]
  have htriv : dupIdsOf st0 ids = [] →
      MergeInv st0 (processed ++ [ids]) st := by
    intro hdid
    refine ⟨?_, ?_⟩
    · rw [hinv.1]
      apply List.filter_congr
      intro b _
      simp [List.any_append, hdid]
    · rw [hinv.2]
      apply List.map_congr_left
      intro s _
      cases hb : s.bill_id with
      | none =>
        have h1 : remapAll st0 processed s = s := by simp only [remapAll, hb]
        have h2 : remapAll st0 (processed ++ [ids]) s = s := by
          simp only [remapAll, hb]
        rw [h1, h2]
      | some b =>
        cases hfs : processed.findSome? (fun g =>
            if (dupIdsOf st0 g).contains b then some (masterIdOf st0 g)
            else none) with
        | none =>
          have h1 : remapAll st0 processed s = s := by
            simp only [remapAll, hb, hfs]
          have hval : ((processed ++ [ids]).findSome? (fun g =>
              if (dupIdsOf st0 g).contains b then some (masterIdOf st0 g)
              else none)) = none := by
            rw [List.findSome?_append, hfs, Option.none_or]
            simp only [List.findSome?_cons, hdid]
            rw [if_neg (fun h => Bool.noConfusion h)]
            rfl
          have h2 : remapAll st0 (processed ++ [ids]) s = s := by
            simp only [remapAll, hb, hval]
          rw [h1, h2]
        | some mid =>
          have h1 : remapAll st0 processed s =
              { s with bill_id := some mid } := by
            simp only [remapAll, hb, hfs]
          have hval : ((processed ++ [ids]).findSome? (fun g =>
              if (dupIdsOf st0 g).contains b then some (masterIdOf st0 g)
              else none)) = some mid := by
            rw [List.findSome?_append, hfs]
            rfl
          have h2 : remapAll st0 (processed ++ [ids]) s =
              { s with bill_id := some mid } := by
            simp only [remapAll, hb, hval]
          rw [h1, h2]
  cases hplan0 : groupPlan st0 ids with
  | none =>
    have hgid : mergeGroup st ids = st := by rw [mergeGroup, C3, hplan0]
    have hdid : dupIdsOf st0 ids = [] := by rw [dupIdsOf, hplan0]
    rw [hgid]
    exact htriv hdid
  | some pr =>
    obtain ⟨m, dl⟩ := pr
    cases dl with
    | nil =>
      have hgid : mergeGroup st ids = st := by rw [mergeGroup, C3, hplan0]
      have hdid : dupIdsOf st0 ids = [] := by rw [dupIdsOf, hplan0]
      rw [hgid]
      exact htriv hdid
    | cons d ds =>
      have hdid : dupIdsOf st0 ids = d :: ds := by rw [dupIdsOf, hplan0]
      have hmid : masterIdOf st0 ids = m := by rw [masterIdOf, hplan0]
      have hgid : mergeGroup st ids =
          deleteBills (updateSections st (d :: ds) m) (d :: ds) := by
        rw [mergeGroup, C3, hplan0]
      rw [hgid]
      refine ⟨?_, ?_⟩
      · show st.bills.filter (fun b => !((d :: ds).contains b.id)) =
          st0.bills.filter (fun b => !((processed ++ [ids]).any
            (fun g => (dupIdsOf st0 g).contains b.id)))
        rw [hinv.1, List.filter_filter]
        apply List.filter_congr
        intro b _
        simp only [List.any_append, List.any_cons, List.any_nil, hdid,
          Bool.or_false, Bool.not_or]
        rw [Bool.and_comm]
      · show st.sections.map (fun s =>
            match s.bill_id with
            | some b => if (d :: ds).contains b
                then { s with bill_id := some m } else s
            | none => s) =
          st0.sections.map (remapAll st0 (processed ++ [ids]))
        rw [hinv.2, List.map_map]
        apply List.map_congr_left
        intro s _
        simp only [Function.comp]
        cases hb : s.bill_id with
        | none =>
          have h1 : remapAll st0 processed s = s := by
            simp only [remapAll, hb]
          have h2 : remapAll st0 (processed ++ [ids]) s = s := by
            simp only [remapAll, hb]
          simp only [h1, hb, h2]
        | some b =>
          cases hfs : processed.findSome? (fun g =>
              if (dupIdsOf st0 g).contains b then some (masterIdOf st0 g)
              else none) with
          | none =>
            have h1 : remapAll st0 processed s = s := by
              simp only [remapAll, hb, hfs]
            by_cases hdc : (d :: ds).contains b = true
            · have hval : ((processed ++ [ids]).findSome? (fun g =>
                  if (dupIdsOf st0 g).contains b then some (masterIdOf st0 g)
                  else none)) = some m := by
                simp only [List.findSome?_append, hfs, Option.none_or,
                  List.findSome?_cons, hdid]
                rw [if_pos hdc, hmid]
              have h2 : remapAll st0 (processed ++ [ids]) s =
                  { s with bill_id := some m } := by
                simp only [remapAll, hb, hval]
              simp only [h1, hb, h2]
              rw [if_pos hdc]
            · have hval : ((processed ++ [ids]).findSome? (fun g =>
                  if (dupIdsOf st0 g).contains b then some (masterIdOf st0 g)
                  else none)) = none := by
                simp only [List.findSome?_append, hfs, Option.none_or,
                  List.findSome?_cons, hdid]
                rw [if_neg hdc]
                rfl
              have h2 : remapAll st0 (processed ++ [ids]) s = s := by
                simp only [remapAll, hb, hval]
              simp only [h1, hb, h2]
              rw [if_neg hdc]
          | some mid =>
            have h1 : remapAll st0 processed s =
                { s with bill_id := some mid } := by
              simp only [remapAll, hb, hfs]
            have hval : ((processed ++ [ids]).findSome? (fun g =>
                if (dupIdsOf st0 g).contains b then some (masterIdOf st0 g)
                else none)) = some mid := by
              rw [List.findSome?_append, hfs]
              rfl
            have h2 : remapAll st0 (processed ++ [ids]) s =
                { s with bill_id := some mid } := by
              simp only [remapAll, hb, hval]
            obtain ⟨g, hg, hfg⟩ := List.exists_of_findSome?_eq_some hfs
            by_cases hcg : (dupIdsOf st0 g).contains b = true
            · rw [if_pos hcg] at hfg
              have hmidg : masterIdOf st0 g = mid := Option.some_inj.mp hfg
              obtain ⟨hbg, _, hmg⟩ :=
                dupIdsOf_mem_group ((contains_iff _ b).mp hcg)
              have hmidin : mid ∈ g := by rw [← hmidg]; exact hmg
              have hgne : g ≠ ids := fun he => hnp (he ▸ hg)
              have hncm : ¬((d :: ds).contains mid = true) := by
                intro hc
                have h3 : mid ∈ dupIdsOf st0 ids := by
                  rw [hdid]
                  exact (contains_iff _ _).mp hc
                obtain ⟨hin, _, _⟩ := dupIdsOf_mem_group h3
                exact hgne (dupGroups_eq_of_shared hinj (hmem g hg)
                  hids_mem hmidin hin)
              simp only [h1, h2]
              rw [if_neg hncm]
            · rw [if_neg hcg] at hfg
              exact absurd hfg (by simp)

/-- Folding the remaining groups carries the invariant to the full list. -/
theorem mergeRun_inv (st0 : Store)
    (hinj : ∀ b1 ∈ st0.bills, ∀ b2 ∈ st0.bills, b1.id = b2.id → b1 = b2) :
    ∀ (rest processed : List (List Nat)) (st : Store),
    processed ++ rest = dupGroups st0.bills →
    MergeInv st0 processed st →
    MergeInv st0 (dupGroups st0.bills) (rest.foldl mergeGroup st) := by
  intro rest
  induction rest with
  | nil =>
    intro processed st harr hinv
    rw [List.foldl_nil]
    rw [List.append_nil] at harr
    exact harr ▸ hinv
  | cons ids rest2 ih =>
    intro processed st harr hinv
    rw [List.foldl_cons]
    refine ih (processed ++ [ids]) (mergeGroup st ids) ?_
      (mergeStep_inv st0 hinj processed rest2 ids harr st hinv)
    rw [List.append_assoc]
    simpa using harr

/-- The whole merge run realises the statically planned outcome. -/
theorem merge_inv (st0 : Store)
    (hnodup : (st0.bills.map (fun b => b.id)).Nodup) :
    MergeInv st0 (dupGroups st0.bills) (merge st0) := by
  have hinj : ∀ b1 ∈ st0.bills, ∀ b2 ∈ st0.bills, b1.id = b2.id → b1 = b2 :=
    fun b1 h1 b2 h2 => List.inj_on_of_nodup_map hnodup h1 h2
  rw [merge]
  exact mergeRun_inv st0 hinj (dupGroups st0.bills) [] st0 rfl
    (mergeInv_nil st0)

end MergeBills

/-- C6.  With primary-key-unique bill ids, every duplicate-title group of
the initial store resolves to a master bill of that group with the maximal
linked-section count, ties broken by earliest creation time; after the full
merge run every section that pointed at a non-master id of the group points
at the master, the master row survives, and no other bill of the group
remains in the bill table. -/
theorem c6_merge_master_selection :
    ∀ (st0 : MergeBills.Store),
    (st0.bills.map (fun b => b.id)).Nodup →
    ∀ ids ∈ MergeBills.dupGroups st0.bills,
    ∃ master ∈ st0.bills, master.id ∈ ids ∧
      (∀ b ∈ st0.bills, b.id ∈ ids →
        MergeBills.sectionCount st0.sections b.id ≤
          MergeBills.sectionCount st0.sections master.id ∧
        (MergeBills.sectionCount st0.sections b.id =
            MergeBills.sectionCount st0.sections master.id →
          master.created_at ≤ b.created_at)) ∧
      (∀ s ∈ st0.sections, ∀ bid : Nat, s.bill_id = some bid → bid ∈ ids →
        bid ≠ master.id →
        ∃ s2 ∈ (MergeBills.merge st0).sections,
          s2.id = s.id ∧ s2.bill_id = some master.id) ∧
      master ∈ (MergeBills.merge st0).bills ∧
      (∀ b2 ∈ (MergeBills.merge st0).bills, b2.id ∈ ids →
        b2.id = master.id) := by
  intro st0 hnodup ids hids
  have hinj : ∀ b1 ∈ st0.bills, ∀ b2 ∈ st0.bills, b1.id = b2.id → b1 = b2 :=
    fun b1 h1 b2 h2 => List.inj_on_of_nodup_map hnodup h1 h2
  obtain ⟨hbillsEq, hsectsEq⟩ := MergeBills.merge_inv st0 hnodup
  obtain ⟨k, hkg, hlen⟩ := MergeBills.dupGroups_ex hids
  obtain ⟨n0, hn0⟩ := List.exists_mem_of_length_pos (l := ids) (by omega)
  have hn0g := hn0
  rw [hkg] at hn0g
  obtain ⟨b0, hb0, hb0id, _⟩ := MergeBills.mem_groupIds.mp hn0g
  have hb0c : b0 ∈ st0.bills.filter (fun b => ids.contains b.id) :=
    List.mem_filter.mpr ⟨hb0, (MergeBills.contains_iff _ _).mpr
      (by rw [hb0id]; exact hn0)⟩
  cases hcand : st0.bills.filter (fun b => ids.contains b.id) with
  | nil =>
    rw [hcand] at hb0c
    exact absurd hb0c (List.not_mem_nil b0)
  | cons c0 cs0 =>
    have hpm : ∃ master, MergeBills.pickMaster st0.sections
        (st0.bills.filter (fun b => ids.contains b.id)) = some master := by
      rw [hcand, MergeBills.pickMaster]
      exact ⟨_, rfl⟩
    obtain ⟨master, hpm⟩ := hpm
    have hplan : MergeBills.groupPlan st0 ids = some (master.id,
        ((st0.bills.filter (fun b => ids.contains b.id)).filter
          (fun c => c.id ≠ master.id)).map (fun c => c.id)) := by
      simp only [MergeBills.groupPlan]
      rw [hpm]
    set dl := ((st0.bills.filter (fun b => ids.contains b.id)).filter
      (fun c => c.id ≠ master.id)).map (fun c => c.id) with hdl
    obtain ⟨⟨x, hx, hxid, hmidmem⟩, hdlmem, hsplit⟩ :=
      MergeBills.groupPlan_spec2 hplan
    have hmastermem : master ∈ st0.bills :=
      List.mem_of_mem_filter (MergeBills.pickMaster_mem hpm)
    have hdid : MergeBills.dupIdsOf st0 ids = dl := by
      rw [MergeBills.dupIdsOf, hplan]
    have hmid : MergeBills.masterIdOf st0 ids = master.id := by
      rw [MergeBills.masterIdOf, hplan]
    refine ⟨master, hmastermem, hmidmem, ?_, ?_, ?_, ?_⟩
    · intro b hb hbid
      have hbc : b ∈ st0.bills.filter (fun bb => ids.contains bb.id) :=
        List.mem_filter.mpr ⟨hb, (MergeBills.contains_iff _ _).mpr hbid⟩
      have hbest := MergeBills.pickMaster_best hpm b hbc
      rw [MergeBills.betterCand, decide_eq_false_iff_not] at hbest
      exact ⟨by omega, fun he => by omega⟩
    · intro s hs bid hsb hbidin hbidne
      have hbid_dl : bid ∈ dl := by
        have hbig := hbidin
        rw [hkg] at hbig
        obtain ⟨bb, hbb, hbbid, _⟩ := MergeBills.mem_groupIds.mp hbig
        rcases hsplit bb hbb (by rw [hbbid]; exact hbidin) with hcase | hcase
        · exact absurd (hbbid ▸ hcase) hbidne
        · rw [← hbbid]
          exact hcase
      refine ⟨MergeBills.remapAll st0 (MergeBills.dupGroups st0.bills) s,
        ?_, ?_, ?_⟩
      · rw [hsectsEq]
        exact List.mem_map_of_mem _ hs
      · exact MergeBills.remapAll_id st0 _ s
      · have hcst : (MergeBills.dupGroups st0.bills).findSome? (fun g =>
            if (MergeBills.dupIdsOf st0 g).contains bid
            then some (MergeBills.masterIdOf st0 g) else none)
            = some master.id := by
          refine MergeBills.findSome_const _ _ _ ids hids ?_ ?_
          · show (if (MergeBills.dupIdsOf st0 ids).contains bid = true
                then some (MergeBills.masterIdOf st0 ids) else none) ≠ none
            rw [hdid,
              if_pos ((MergeBills.contains_iff _ _).mpr hbid_dl)]
            simp
          · intro g hg y hfy
            by_cases hcg : (MergeBills.dupIdsOf st0 g).contains bid = true
            · rw [if_pos hcg] at hfy
              have hy : y = MergeBills.masterIdOf st0 g :=
                (Option.some_inj.mp hfy).symm
              obtain ⟨hbin, _, _⟩ := MergeBills.dupIdsOf_mem_group
                ((MergeBills.contains_iff _ _).mp hcg)
              have hgeq : g = ids :=
                MergeBills.dupGroups_eq_of_shared hinj hg hids hbin hbidin
              rw [hy, hgeq, hmid]
            · rw [if_neg hcg] at hfy
              exact absurd hfy (by simp)
        simp only [MergeBills.remapAll, hsb]
        rw [hcst]
    · have hanyf : (MergeBills.dupGroups st0.bills).any
          (fun g => (MergeBills.dupIdsOf st0 g).contains master.id)
          = false := by
        rw [List.any_eq_false]
        intro g hg
        intro hc
        obtain ⟨hmin, hmne, _⟩ := MergeBills.dupIdsOf_mem_group
          ((MergeBills.contains_iff _ _).mp hc)
        have hgeq : g = ids :=
          MergeBills.dupGroups_eq_of_shared hinj hg hids hmin hmidmem
        rw [hgeq, hmid] at hmne
        exact hmne rfl
      rw [hbillsEq]
      simp only [List.mem_filter]
      refine ⟨hmastermem, ?_⟩
      rw [hanyf]
      rfl
    · intro b2 hb2 hb2in
      rw [hbillsEq] at hb2
      simp only [List.mem_filter] at hb2
      obtain ⟨hb2mem, hb2f⟩ := hb2
      have hanyf : (MergeBills.dupGroups st0.bills).any
          (fun g => (MergeBills.dupIdsOf st0 g).contains b2.id) = false := by
        cases hX : (MergeBills.dupGroups st0.bills).any
            (fun g => (MergeBills.dupIdsOf st0 g).contains b2.id) with
        | false => rfl
        | true =>
          rw [hX] at hb2f
          exact absurd hb2f (by decide)
      have hnotdl : b2.id ∉ dl := by
        intro hc
        have h4 := List.any_eq_false.mp hanyf ids hids
        rw [hdid] at h4
        exact h4 ((MergeBills.contains_iff _ _).mpr hc)
      rcases hsplit b2 hb2mem hb2in with h | h
      · exact h
      · exact absurd h hnotdl

/-- C6, witness: in a concrete store with two bills of the same normalized
title and one linked section each, the earlier-created bill is the master,
the other bill's section is repointed at it, and only the master remains. -/
theorem c6_merge_master_selection_witness :
    ((MergeBills.c6SampleStore.bills.map (fun b => b.id)).Nodup ∧
      [1, 2] ∈ MergeBills.dupGroups MergeBills.c6SampleStore.bills) ∧
    (∃ master ∈ MergeBills.c6SampleStore.bills, master.id ∈ [1, 2] ∧
      (∀ b ∈ MergeBills.c6SampleStore.bills, b.id ∈ [1, 2] →
        MergeBills.sectionCount MergeBills.c6SampleStore.sections b.id ≤
          MergeBills.sectionCount MergeBills.c6SampleStore.sections
            master.id ∧
        (MergeBills.sectionCount MergeBills.c6SampleStore.sections b.id =
            MergeBills.sectionCount MergeBills.c6SampleStore.sections
              master.id →
          master.created_at ≤ b.created_at)) ∧
      (∀ s ∈ MergeBills.c6SampleStore.sections, ∀ bid : Nat,
        s.bill_id = some bid → bid ∈ [1, 2] → bid ≠ master.id →
        ∃ s2 ∈ (MergeBills.merge MergeBills.c6SampleStore).sections,
          s2.id = s.id ∧ s2.bill_id = some master.id) ∧
      master ∈ (MergeBills.merge MergeBills.c6SampleStore).bills ∧
      (∀ b2 ∈ (MergeBills.merge MergeBills.c6SampleStore).bills,
        b2.id ∈ [1, 2] → b2.id = master.id)) :=
  ⟨⟨by decide, by decide⟩,
   c6_merge_master_selection MergeBills.c6SampleStore (by decide) [1, 2]
     (by decide)⟩

end SecondReading
